import Mathlib

/-!
Verification of the obsx CLI's reconciliation and orchestration core.

This file gives a shallow embedding, in Lean 4, of the parts of the obsx
repository that the specification's claims are about:

* the natural-language action translator and executor of
  src/commands/yolo.ts (response parsing, batch execution, bounded retry);
* the image-layer reconciler of src/commands/add-images.ts
  (directory listing, the per-image decision procedure, working sets);
* the webcam provisioner's unique-name resolution (uniqueInputName).

Modelling conventions, used throughout:

* JavaScript strings are Lean Strings, but every string operation the source
  uses (trim, startsWith, toLowerCase, the fence-stripping regex) is
  re-implemented here on the underlying character list, because the model
  must be executable inside the kernel.  The semantics follows the
  JavaScript operation it stands for; Char.isWhitespace stands for the
  regex class \s and for the characters String.prototype.trim removes.
* JSON.parse of the raw response text is an external collaborator (the
  model takes a jsonParse oracle); everything after it - the array and
  element validation of parseCallsFromResponse - is modelled faithfully.
* JavaScript Sets and Maps are modelled as lists queried by membership;
  deduplication is omitted where only membership is observable.
* Remote (OBS WebSocket) calls are modelled by an explicit remote state,
  an oracle for per-call failures, and an event trace recording every call
  the code issues.  Mutating calls are modelled as succeeding: in the
  source a failed mutation aborts the whole command, so the model covers
  exactly the runs that complete, which is what the claims quantify over.
-/

/-! ## Character-list string operations (JavaScript semantics) -/

/-- Leading and trailing whitespace removal on a character list, the
semantics of String.prototype.trim. -/
def trimChars (cs : List Char) : List Char :=
  ((cs.dropWhile Char.isWhitespace).reverse.dropWhile Char.isWhitespace).reverse

/-! ## JSON values

JSON.parse yields null, booleans, numbers, strings, arrays and objects.
Numbers are modelled as integers: no claim depends on fractional values.
An object is its field list; JSON.parse emits each key once. -/

inductive Json where
  | null
  | bool (b : Bool)
  | num (n : Int)
  | str (s : String)
  | arr (elems : List Json)
  | obj (fields : List (String × Json))

/-- Value of a field of a JSON object, the semantics of both
(key in item) and item.key on a parsed JSON object. -/
def jsonGet (fields : List (String × Json)) (key : String) : Option Json :=
  (fields.find? (fun p => p.1 == key)).map Prod.snd

/-- Whether a JSON value is an array (Array.isArray). -/
def Json.isArr : Json → Bool
  | .arr _ => true
  | _ => false

/-- Whether a JSON value is a string (typeof v === "string"). -/
def Json.isStr : Json → Bool
  | .str _ => true
  | _ => false

/-! ## The translator's response parser (yolo.ts, parseCallsFromResponse) -/

/-- ObsCall of yolo.ts.  The source declares requestType as a string, but
parseCallsFromResponse (line 135) only casts the parsed JSON value without
checking it, so at runtime any JSON value can occupy the field; the model
keeps the field at type Json to reflect that.  requestData is optional. -/
structure ObsCall where
  requestType : Json
  requestData : Option Json

/-- CallResult of yolo.ts: one executed call and its error, if it failed. -/
structure CallResult where
  call : ObsCall
  error : Option String

/-- Leading fence removal: the replace of the regex
matching the start of the cleaned text (three backticks, an optional json
tag, then any whitespace).  Only called when the text starts with a fence. -/
def stripLeadFence (cs : List Char) : List Char :=
  let cs1 := cs.drop 3
  let cs2 := if List.isPrefixOf "json".data cs1 then cs1.drop 4 else cs1
  cs2.dropWhile Char.isWhitespace

/-- Match of the trailing-fence regex at the current position: an optional
newline, three backticks, then only whitespace up to the end. -/
def fenceTailHere (cs : List Char) : Bool :=
  (List.isPrefixOf "```".data cs && (cs.drop 3).all Char.isWhitespace)
  || (match cs with
      | '\n' :: rest =>
        List.isPrefixOf "```".data rest && (rest.drop 3).all Char.isWhitespace
      | _ => false)

/-- Trailing fence removal: String.prototype.replace keeps the text before
the leftmost position where the trailing-fence regex matches through to the
end of the string; with no match the text is unchanged. -/
def stripTrailFence : List Char → List Char
  | [] => []
  | c :: cs => if fenceTailHere (c :: cs) then [] else c :: stripTrailFence cs

/-- Fence stripping of parseCallsFromResponse: trim, then, when the text
starts with three backticks, remove the leading fence (with its optional
json tag) and the trailing fence. -/
def stripFences (text : String) : String :=
  let cleaned := trimChars text.data
  if List.isPrefixOf "```".data cleaned then
    String.mk (stripTrailFence (stripLeadFence cleaned))
  else
    String.mk cleaned

/-- Validation of one element of the parsed array (yolo.ts lines 129-138).
The source throws unless the element satisfies typeof item === "object",
item !== null and "requestType" in item; JSON arrays also have typeof
"object" but never carry a requestType property, so exactly the objects
with a requestType field pass.  requestData falls back through the ??
operator, which turns an explicit null into undefined. -/
def elemToCall : Json → Except String ObsCall
  | .obj fields =>
    match jsonGet fields "requestType" with
    | some rt =>
      .ok { requestType := rt
            requestData :=
              match jsonGet fields "requestData" with
              | some .null => none
              | v => v }
    | none => .error "is missing requestType"
  | _ => .error "is missing requestType"

/-- Array-level validation of parseCallsFromResponse (yolo.ts lines
123-138), applied to the JSON value the response text parsed to. -/
def parseCallsFromJson : Json → Except String (List ObsCall)
  | .arr items => items.mapM elemToCall
  | _ => .error "Expected a JSON array of OBS calls"

/-- parseCallsFromResponse of yolo.ts: strip fences, JSON.parse (the
jsonParse oracle; none models a JSON.parse exception), then validate. -/
def parseCallsFromResponse (jsonParse : String → Option Json)
    (text : String) : Except String (List ObsCall) :=
  match jsonParse (stripFences text) with
  | none => .error "invalid JSON"
  | some j => parseCallsFromJson j

/-! ## The translator and executor loop (yolo.ts, yolo) -/

/-- MAX_ATTEMPTS of yolo.ts line 17. -/
def MAX_ATTEMPTS : Nat := 3

/-- Conversation turn of the messages array in yolo.  The source renders
each content as a template string; the model keeps the data those templates
interpolate (snapshot text, original prompt, failed-call list), since the
claims are about which data is carried, not about the surrounding prose. -/
inductive Turn where
  | userInitial (stateText prompt : String)
  | userRetry (failed : List CallResult) (stateText : String)
  | assistant (text : String)

/-- Event trace entry of one yolo run: a read-only obs.call issued while
gathering state, the anthropic.messages.create call (with the conversation
passed to it), or the execution of one translated ActionCall with its
outcome. -/
inductive YEvent where
  | remoteQuery (requestType : String)
  | llmRequest (msgs : List Turn)
  | remoteExec (call : ObsCall) (error : Option String)

/-- Environment of one yolo run: the oracles for everything outside the
loop logic.  scenesAt gives the scene names GetSceneList returned while
gathering on a given attempt (empty when the call failed); stateTextAt the
snapshot text that gathering rendered; jsonParse stands for JSON.parse;
complete for the text-completion collaborator; execErr gives the error of
the i-th executed call of a given attempt (none = success). -/
structure YoloEnv where
  scenesAt : Nat → List String
  stateTextAt : Nat → String
  jsonParse : String → Option Json
  complete : List Turn → String
  execErr : Nat → Nat → Option String

/-- Read-only obs.call traffic of gatherObsState (yolo.ts lines 57-114).
Each query sits in its own try/catch, so every one is issued regardless of
individual failures; the per-scene GetSceneItemList calls run once per
scene name GetSceneList returned. -/
def gatherEvents (scenes : List String) : List YEvent :=
  [.remoteQuery "GetVersion", .remoteQuery "GetVideoSettings",
   .remoteQuery "GetSceneList"]
  ++ scenes.map (fun _ => .remoteQuery "GetSceneItemList")
  ++ [.remoteQuery "GetInputList", .remoteQuery "GetStreamStatus",
      .remoteQuery "GetRecordStatus"]

/-- Batch executor of yolo.ts lines 222-244: the for loop over the parsed
calls.  Each call is executed through the failure oracle (indexed by its
position), its attempt is recorded in the trace, and a failure is pushed
onto failedResults without stopping the loop. -/
def runBatch (err : Nat → Option String) : Nat → List ObsCall →
    List YEvent × List CallResult
  | _, [] => ([], [])
  | i, c :: rest =>
    let e := err i
    let (tr, fs) := runBatch err (i + 1) rest
    (.remoteExec c e :: tr,
     match e with
     | none => fs
     | some m => { call := c, error := some m } :: fs)

/-- Terminal outcome of a yolo run.  parseFailed and noResponse set the
process exit code to 1 and return; emptyBatch and done return successfully;
exhausted reports the remaining failures and sets the exit code to 1. -/
inductive YoloOutcome where
  | noResponse
  | parseFailed
  | emptyBatch
  | done
  | exhausted (failed : List CallResult)

/-- Outcome of one iteration of the for loop of yolo.ts lines 164-261:
either the loop is left with a terminal outcome, or the iteration ends in
a retry, carrying the extended conversation and the failure list into the
next attempt. -/
inductive AttemptOut where
  | halt (evs : List YEvent) (out : YoloOutcome)
  | retry (evs : List YEvent) (msgs2 : List Turn) (failed : List CallResult)

/-- User turn a given attempt pushes onto the conversation: the snapshot
plus the original instruction on attempt 1, the error feedback plus a
fresh snapshot on retries (yolo.ts lines 167-180). -/
def attemptTurn (env : YoloEnv) (prompt : String) (attempt : Nat)
    (prevFailed : List CallResult) : Turn :=
  if attempt == 1 then .userInitial (env.stateTextAt attempt) prompt
  else .userRetry prevFailed (env.stateTextAt attempt)

/-- Body of one iteration of the for loop of yolo.ts lines 164-261:
gather state, build the attempt's user turn (initial on attempt 1, the
error-feedback turn on retries), request a translation with the whole
conversation, append the raw response as an assistant turn, parse,
execute, and decide between terminating and retrying.  isLast is the
negation of the attempt < MAX_ATTEMPTS test of line 251. -/
def yoloAttempt (env : YoloEnv) (prompt : String) (attempt : Nat)
    (isLast : Bool) (msgs : List Turn) (prevFailed : List CallResult) :
    AttemptOut :=
  let msgs1 := msgs ++ [attemptTurn env prompt attempt prevFailed]
  let resp := env.complete msgs1
  let msgs2 := msgs1 ++ [Turn.assistant resp]
  let ev1 := gatherEvents (env.scenesAt attempt) ++ [.llmRequest msgs1]
  if resp = "" then .halt ev1 .noResponse
  else
    match parseCallsFromResponse env.jsonParse resp with
    | .error _ => .halt ev1 .parseFailed
    | .ok calls =>
      if calls.isEmpty then .halt ev1 .emptyBatch
      else
        let br := runBatch (env.execErr attempt) 0 calls
        let ev2 := ev1 ++ br.1
        if br.2.isEmpty then .halt ev2 .done
        else if isLast then .halt ev2 (.exhausted br.2)
        else .retry ev2 msgs2 br.2

/-- The for loop of yolo.ts lines 164-261: run one attempt and either stop
or recurse with the next attempt.  attempt is the loop counter; remaining
= MAX_ATTEMPTS + 1 - attempt is the structural fuel, so attempt <
MAX_ATTEMPTS is remaining ≥ 2. -/
def yoloStep (env : YoloEnv) (prompt : String) :
    Nat → Nat → List Turn → List CallResult → List YEvent × YoloOutcome
  | _, 0, _, prevFailed => ([], .exhausted prevFailed)
  | attempt, remaining + 1, msgs, prevFailed =>
    match yoloAttempt env prompt attempt (remaining == 0) msgs prevFailed with
    | .halt evs out => (evs, out)
    | .retry evs msgs2 failed =>
      let r := yoloStep env prompt (attempt + 1) remaining msgs2 failed
      (evs ++ r.1, r.2)

/-- The whole yolo loop: attempt 1 with full fuel, an empty conversation
and no carried failures. -/
def yoloRun (env : YoloEnv) (prompt : String) : List YEvent × YoloOutcome :=
  yoloStep env prompt 1 MAX_ATTEMPTS [] []

/-- Number of remote-interface invocations (queries or executions) in a
trace. -/
def countRemote (evs : List YEvent) : Nat :=
  evs.countP fun e =>
    match e with
    | .remoteQuery _ => true
    | .remoteExec _ _ => true
    | .llmRequest _ => false

/-- Number of executed ActionCalls in a trace. -/
def countExec (evs : List YEvent) : Nat :=
  evs.countP fun e =>
    match e with
    | .remoteExec _ _ => true
    | _ => false

/-- Number of translation (text-completion) requests in a trace. -/
def countLlm (evs : List YEvent) : Nat :=
  evs.countP fun e =>
    match e with
    | .llmRequest _ => true
    | _ => false

/-! ## The image-layer reconciler (add-images.ts, addImages) -/

/-- DesiredImage: one entry of listImagesInDir's output.  filePath is the
normalized absolute path (normalizeFilePath output). -/
structure Image where
  fileName : String
  filePath : String
  deriving DecidableEq

/-- Remote OBS state, as far as the reconciler observes and mutates it:
the source names placed in the target scene (GetSceneItemList), and the
global input list together with each input's readable backing file.  The
Option String of an input is none when GetInputSettings throws for it or
its file setting is absent, not a string, or blank - the reconciler treats
all those alike - and otherwise the normalized file path; stored paths are
kept in normalized form (normalizeFilePath is idempotent). -/
structure RemoteState where
  members : List String
  inputs : List (String × Option String)
  deriving DecidableEq

/-- Names of all inputs, the GetInputList view (allInputNames). -/
def inputNames (st : RemoteState) : List String :=
  st.inputs.map Prod.fst

/-- Readable backing file of a named input: the GetInputSettings read with
its try/catch and file-setting validation collapsed into one lookup. -/
def settingsFileOf (st : RemoteState) (name : String) : Option String :=
  match st.inputs.find? (fun p => p.1 == name) with
  | some p => p.2
  | none => none

/-- Scene-member source names as getSceneItemSourceNames returns them:
blank names are dropped; the dedup only affects multiplicity, not
membership, so it is omitted. -/
def memberNames (st : RemoteState) : List String :=
  st.members.filter (fun n => n.data.length != 0)

/-- Backing files of the scene members, the value set of
getExistingImageFilesBySourceName (existingFiles). -/
def memberFiles (st : RemoteState) : List String :=
  (memberNames st).filterMap (settingsFileOf st)

/-- In-memory working sets and counters of one addImages pass. -/
structure WorkSet where
  existingNames : List String
  existingFiles : List String
  allInputNames : List String
  created : Nat
  skipped : Nat
  deriving DecidableEq

/-- Branch of addImages' per-image case analysis that an image took. -/
inductive Decision where
  | skipMember
  | skipFile
  | skipConflict
  | attach
  | create
  deriving DecidableEq

/-- Remote calls the per-image loop can issue.  setInputSettings is the
SetInputSettings request of the protocol: the reconciler never issues it,
and including it keeps that absence expressible.  The scene name is fixed
for the pass and omitted; scene items are identified by source name. -/
inductive RecEvent where
  | getInputSettings (inputName : String)
  | createSceneItem (sourceName : String)
  | setSceneItemTransform (sourceName : String)
  | createInput (inputName file : String)
  | setInputSettings (inputName : String)
  deriving DecidableEq

/-- Whether an event mutates remote state (everything but the settings
read). -/
def RecEvent.isMutation : RecEvent → Bool
  | .getInputSettings _ => false
  | _ => true

/-- Result of one per-image step: the remote state after the step's
mutating calls, the updated working sets, the remote calls issued, and the
branch taken. -/
structure StepResult where
  state : RemoteState
  work : WorkSet
  events : List RecEvent
  decision : Decision

/-- The per-image body of addImages' for loop (add-images.ts lines
182-252): the four-branch decision, the remote calls it issues, the
working-set and counter updates, and the remote-state effect of the
mutating calls.  CreateInput stores the file setting; a blank path is
stored as an unreadable setting, matching what every later read of it
yields. -/
def processImage (st : RemoteState) (ws : WorkSet) (img : Image) : StepResult :=
  if img.fileName ∈ ws.existingNames then
    ⟨st, { ws with skipped := ws.skipped + 1 }, [], .skipMember⟩
  else if img.filePath ∈ ws.existingFiles then
    ⟨st, { ws with skipped := ws.skipped + 1 }, [], .skipFile⟩
  else if img.fileName ∈ ws.allInputNames then
    match settingsFileOf st img.fileName with
    | some f =>
      if f = img.filePath then
        ⟨{ st with members := st.members ++ [img.fileName] },
         { ws with
            existingNames := ws.existingNames ++ [img.fileName]
            existingFiles := ws.existingFiles ++ [img.filePath]
            created := ws.created + 1 },
         [.getInputSettings img.fileName, .createSceneItem img.fileName,
          .setSceneItemTransform img.fileName],
         .attach⟩
      else
        ⟨st, { ws with skipped := ws.skipped + 1 },
         [.getInputSettings img.fileName], .skipConflict⟩
    | none =>
      ⟨st, { ws with skipped := ws.skipped + 1 },
       [.getInputSettings img.fileName], .skipConflict⟩
  else
    ⟨{ st with
        members := st.members ++ [img.fileName]
        inputs := st.inputs ++
          [(img.fileName,
            if (trimChars img.filePath.data).length != 0
            then some img.filePath else none)] },
     { ws with
        existingNames := ws.existingNames ++ [img.fileName]
        existingFiles := ws.existingFiles ++ [img.filePath]
        created := ws.created + 1 },
     [.createInput img.fileName img.filePath,
      .setSceneItemTransform img.fileName],
     .create⟩

/-- Result of one reconciliation pass. -/
structure RunResult where
  state : RemoteState
  work : WorkSet
  events : List RecEvent
  decisions : List Decision

/-- The for loop of addImages over the desired images, threading remote
state and working sets and accumulating the trace and decisions. -/
def runImages (st : RemoteState) (ws : WorkSet) : List Image → RunResult
  | [] => ⟨st, ws, [], []⟩
  | img :: rest =>
    let p := processImage st ws img
    let r := runImages p.state p.work rest
    ⟨r.state, r.work, p.events ++ r.events, p.decision :: r.decisions⟩

/-- Initial working sets of a pass, from the pre-pass snapshot reads
(add-images.ts lines 164-180). -/
def initWorkSet (st : RemoteState) : WorkSet :=
  { existingNames := memberNames st
    existingFiles := memberFiles st
    allInputNames := inputNames st
    created := 0
    skipped := 0 }

/-- One whole reconciliation pass of addImages against a remote state. -/
def addImagesRun (st : RemoteState) (images : List Image) : RunResult :=
  runImages st (initWorkSet st) images

/-! ## Directory listing (add-images.ts, listImagesInDir) -/

/-- One directory entry as readdirSync with fileTypes reports it. -/
structure DirEntry where
  name : String
  isFile : Bool
  deriving DecidableEq

/-- IMAGE_EXTS of add-images.ts lines 14-23. -/
def IMAGE_EXTS : List String :=
  [".png", ".jpg", ".jpeg", ".gif", ".bmp", ".tif", ".tiff", ".webp"]

/-- Lowercasing, the semantics of String.prototype.toLowerCase on the
ASCII extensions involved. -/
def strToLower (s : String) : String :=
  String.mk (s.data.map Char.toLower)

/-- Extension of a bare file name, the semantics of path.extname: the
suffix from the last dot, empty when there is no dot or the only dot leads
the name.  (Names consisting only of dots diverge from node here; no such
name has an image extension, so the listing is unaffected.) -/
def extname (name : String) : String :=
  let rev := name.data.reverse
  let afterDot := rev.takeWhile (fun c => c != '.')
  if afterDot.length = name.data.length then ""
  else if afterDot.length + 1 = name.data.length then ""
  else String.mk ('.' :: afterDot.reverse)

/-- Code-point comparison of strings.  localeCompare is locale-dependent;
the model fixes the code-point order, which agrees with it on the ASCII
file names the claims use. -/
def strLeChars : List Char → List Char → Bool
  | [], _ => true
  | _ :: _, [] => false
  | a :: as, b :: bs =>
    if a.toNat < b.toNat then true
    else if b.toNat < a.toNat then false
    else strLeChars as bs

/-- Insertion of a string into a sorted list. -/
def insertStr (x : String) : List String → List String
  | [] => [x]
  | y :: ys => if strLeChars x.data y.data then x :: y :: ys else y :: insertStr x ys

/-- Insertion sort of file names, the model of the localeCompare sort. -/
def sortStrings : List String → List String
  | [] => []
  | x :: xs => insertStr x (sortStrings xs)

/-- listImagesInDir of add-images.ts lines 70-81: keep the regular files,
keep the names whose lowercased extension is allowed, sort, and pair every
name with its normalized absolute path (path.join modelled as a slash
join, normalizeFilePath as the identity on the already-absolute result). -/
def listImagesInDir (dir : String) (entries : List DirEntry) : List Image :=
  let files := (entries.filter (fun e => e.isFile)).map (fun e => e.name)
  let imgs := files.filter (fun name => IMAGE_EXTS.contains (strToLower (extname name)))
  (sortStrings imgs).map (fun fileName =>
    { fileName := fileName, filePath := dir ++ "/" ++ fileName })

/-! ## Unique input names (webcam provisioner, uniqueInputName) -/

/-- Candidate name with a numeric suffix, the template baseName-suffix
(JavaScript renders the number in decimal, as Nat.repr does). -/
def candName (base : String) (k : Nat) : String :=
  base ++ "-" ++ Nat.repr k

/-- The while loop of uniqueInputName: increment the suffix while the
candidate is taken.  The loop in the source has no explicit bound; the
model carries fuel, and uniqueInputName passes enough for the search to
always find the first free suffix (uniqueFrom_finds below). -/
def uniqueFrom (names : List String) (base : String) : Nat → Nat → Nat
  | 0, suffix => suffix
  | fuel + 1, suffix =>
    if candName base suffix ∈ names then uniqueFrom names base fuel (suffix + 1)
    else suffix

/-- uniqueInputName of the webcam provisioner: the base name when globally
free, else the first free baseName-k for k = 2, 3, ... -/
def uniqueInputName (names : List String) (base : String) : String :=
  if base ∈ names then candName base (uniqueFrom names base (names.length + 1) 2)
  else base

/-! ## Claim C6: batch execution is total, ordered, once-per-call -/

/-- C6: in every executed batch the parsed calls are run sequentially in
array order, the i-th call is attempted exactly once with the i-th outcome
of the failure oracle, and a failure is recorded in failedResults without
preventing any later call of the batch: the trace is exactly the calls in
order, and the recorded failures are exactly the failing positions in
order. -/
theorem runBatch_total_in_order (err : Nat → Option String) (i : Nat)
    (calls : List ObsCall) :
    (runBatch err i calls).1
      = (List.enumFrom i calls).map (fun p => YEvent.remoteExec p.2 (err p.1))
    ∧ (runBatch err i calls).2
      = (List.enumFrom i calls).filterMap
          (fun p =>
            match err p.1 with
            | some m => some { call := p.2, error := some m }
            | none => none) := by
  induction calls generalizing i with
  | nil => simp [runBatch]
  | cons c rest ih =>
    have h1 := (ih (i + 1)).1
    have h2 := (ih (i + 1)).2
    constructor
    · simp only [runBatch, List.enumFrom, List.map]
      rw [← h1]
    · simp only [runBatch, List.enumFrom, List.filterMap]
      cases herr : err i <;> simp [herr, ← h2]

/-! ## Claim C5: what the response parser accepts and rejects -/

/-- C5 counterexample: an element whose requestType field holds a number,
not a string, is accepted by the parser - the value is kept verbatim - so
parsing does not fail in every case where an element lacks a requestType
field that is a string. -/
theorem parseCalls_accepts_nonstring_requestType :
    parseCallsFromJson (Json.arr [Json.obj [("requestType", Json.num 42)]])
      = Except.ok [{ requestType := Json.num 42, requestData := none }]
    ∧ Json.isStr (Json.num 42) = false :=
  ⟨rfl, rfl⟩

/-- C5 (amended): parsing fails exactly when the top-level value is not an
array or some element is not an object carrying a requestType field (only
the field's presence is checked, not that its value is a string); on
success the calls are the elements in order, with the requestType value
taken verbatim and requestData equal to the element's requestData field,
absent (and an explicit null) becoming undefined.  The fenced-wrapper
stripping is shown on a tagged and an untagged fence. -/
theorem parseCalls_ok_characterization :
    (∀ it c, elemToCall it = Except.ok c ↔
      ∃ fields rt, it = Json.obj fields
        ∧ jsonGet fields "requestType" = some rt
        ∧ c = { requestType := rt
                requestData :=
                  match jsonGet fields "requestData" with
                  | some Json.null => none
                  | v => v })
    ∧ (∀ j cs, parseCallsFromJson j = Except.ok cs ↔
        ∃ l, j = Json.arr l
          ∧ List.Forall₂ (fun it c => elemToCall it = Except.ok c) l cs)
    ∧ (∀ jp text cs, parseCallsFromResponse jp text = Except.ok cs ↔
        ∃ j, jp (stripFences text) = some j ∧ parseCallsFromJson j = Except.ok cs)
    ∧ stripFences "```json\n[\x7b\"requestType\":\"StartRecord\"\x7d]\n```"
        = "[\x7b\"requestType\":\"StartRecord\"\x7d]"
    ∧ stripFences "```\n[\x7b\"requestType\":\"StopStream\"\x7d]\n```"
        = "[\x7b\"requestType\":\"StopStream\"\x7d]" := by
  refine ⟨?_, ?_, ?_, by decide, by decide⟩
  · intro it c
    constructor
    · intro h
      match it with
      | .obj fields =>
        refine ⟨fields, ?_⟩
        simp only [elemToCall] at h
        match hrt : jsonGet fields "requestType" with
        | some rt =>
          rw [hrt] at h
          exact ⟨rt, rfl, rfl, by injection h with h'; exact h'.symm⟩
        | none => rw [hrt] at h; cases h
      | .null | .bool _ | .num _ | .str _ | .arr _ => simp [elemToCall] at h
    · rintro ⟨fields, rt, rfl, hrt, rfl⟩
      simp [elemToCall, hrt]
  · intro j cs
    constructor
    · intro h
      match j with
      | .arr items =>
        refine ⟨items, rfl, ?_⟩
        simp only [parseCallsFromJson] at h
        induction items generalizing cs with
        | nil =>
          rw [List.mapM_nil] at h
          simp only [pure, Except.pure] at h
          injection h with h'
          subst h'
          exact List.Forall₂.nil
        | cons it rest ih =>
          rw [List.mapM_cons] at h
          match hit : elemToCall it with
          | .ok c1 =>
            rw [hit] at h
            match hrest : rest.mapM elemToCall with
            | .ok cs1 =>
              rw [hrest] at h
              simp only [bind, Except.bind, pure, Except.pure] at h
              injection h with h'
              subst h'
              exact List.Forall₂.cons hit (ih cs1 hrest)
            | .error e =>
              rw [hrest] at h
              simp [bind, Except.bind] at h
          | .error e =>
            rw [hit] at h
            simp [bind, Except.bind] at h
      | .null | .bool _ | .num _ | .str _ | .obj _ =>
        simp [parseCallsFromJson] at h
    · rintro ⟨l, rfl, hall⟩
      simp only [parseCallsFromJson]
      induction hall with
      | nil => rfl
      | cons hd tl ih =>
        rw [List.mapM_cons, hd, ih]
        rfl
  · intro jp text cs
    constructor
    · intro h
      simp only [parseCallsFromResponse] at h
      match hj : jp (stripFences text) with
      | some j => rw [hj] at h; exact ⟨j, rfl, h⟩
      | none => rw [hj] at h; cases h
    · rintro ⟨j, hj, hok⟩
      simp [parseCallsFromResponse, hj, hok]


/-! ## Claim C4: a malformed (non-array) translator response -/

/-- Helper: the gathering queries contain no ActionCall executions. -/
theorem countExec_gatherEvents (scenes : List String) :
    countExec (gatherEvents scenes) = 0 := by
  simp [countExec, gatherEvents, List.countP_append, List.countP_map, Function.comp]

/-- Helper: the gathering queries contain no translation requests. -/
theorem countLlm_gatherEvents (scenes : List String) :
    countLlm (gatherEvents scenes) = 0 := by
  simp [countLlm, gatherEvents, List.countP_append, List.countP_map, Function.comp]

/-- Helper: a JSON value that is not an array is rejected by the
array-level validation. -/
theorem parseCallsFromJson_error_of_not_arr (j : Json) (h : j.isArr = false) :
    parseCallsFromJson j = Except.error "Expected a JSON array of OBS calls" := by
  match j with
  | .arr l => exact absurd h (by simp [Json.isArr])
  | .null | .bool _ | .num _ | .str _ | .obj _ => rfl

/-- Helper: the one-step unfolding of the loop driver. -/
theorem yoloStep_succ (env : YoloEnv) (prompt : String) (attempt remaining : Nat)
    (msgs : List Turn) (prevFailed : List CallResult) :
    yoloStep env prompt attempt (remaining + 1) msgs prevFailed
      = match yoloAttempt env prompt attempt (remaining == 0) msgs prevFailed with
        | .halt evs out => (evs, out)
        | .retry evs msgs2 failed =>
          let r := yoloStep env prompt (attempt + 1) remaining msgs2 failed
          (evs ++ r.1, r.2) := rfl

/-- Helper: a first attempt whose response is nonempty and fails to parse
halts the loop with parseFailed, whatever the isLast flag. -/
theorem yoloAttempt_parse_error (env : YoloEnv) (prompt : String) (isLast : Bool)
    (e : String)
    (hresp : env.complete [Turn.userInitial (env.stateTextAt 1) prompt] ≠ "")
    (hparse : parseCallsFromResponse env.jsonParse
        (env.complete [Turn.userInitial (env.stateTextAt 1) prompt])
        = Except.error e) :
    yoloAttempt env prompt 1 isLast [] []
      = .halt (gatherEvents (env.scenesAt 1)
          ++ [.llmRequest [Turn.userInitial (env.stateTextAt 1) prompt]])
          .parseFailed := by
  have ht : attemptTurn env prompt 1 [] = Turn.userInitial (env.stateTextAt 1) prompt := rfl
  simp only [yoloAttempt, ht, List.nil_append, hparse, if_neg hresp]

/-- Concrete environment: the translator answers with an empty JSON
object, valid JSON that is not an array; every remote execution would
succeed.  The jsonParse oracle agrees with JSON.parse on the one string
it is asked about. -/
def envNonArray : YoloEnv :=
  { scenesAt := fun _ => []
    stateTextAt := fun _ => ""
    jsonParse := fun s => if s = "\x7b\x7d" then some (Json.obj []) else none
    complete := fun _ => "\x7b\x7d"
    execErr := fun _ _ => none }

/-- C4 counterexample: on a translator response that is valid JSON but not
an array, the run does terminate as a failure, yet the remote-call
interface has been invoked - the six state-gathering queries issued before
translation - so the operation does not run "without invoking the
remote-call interface at all". -/
theorem yolo_remote_invoked_on_malformed :
    (yoloRun envNonArray "request").2 = YoloOutcome.parseFailed
    ∧ envNonArray.jsonParse
        (stripFences (envNonArray.complete
          [Turn.userInitial (envNonArray.stateTextAt 1) "request"]))
        = some (Json.obj [])
    ∧ Json.isArr (Json.obj []) = false
    ∧ countRemote (yoloRun envNonArray "request").1 = 6 :=
  ⟨rfl, rfl, rfl, by decide⟩

/-- C4 (amended): for every translator response that parses as valid JSON
but is not an array, the operation terminates immediately as a failure,
without retrying translation (exactly one translation request) and without
executing any translated call; the only remote-interface traffic of the
run is the block of read-only gathering queries issued before the
translation. -/
theorem yolo_malformed_is_fatal (env : YoloEnv) (prompt : String) (j : Json)
    (hresp : env.complete [Turn.userInitial (env.stateTextAt 1) prompt] ≠ "")
    (hjson : env.jsonParse (stripFences
        (env.complete [Turn.userInitial (env.stateTextAt 1) prompt])) = some j)
    (harr : j.isArr = false) :
    yoloRun env prompt
      = (gatherEvents (env.scenesAt 1)
          ++ [YEvent.llmRequest [Turn.userInitial (env.stateTextAt 1) prompt]],
         YoloOutcome.parseFailed)
    ∧ countExec (yoloRun env prompt).1 = 0
    ∧ countLlm (yoloRun env prompt).1 = 1 := by
  have hparse : parseCallsFromResponse env.jsonParse
      (env.complete [Turn.userInitial (env.stateTextAt 1) prompt])
      = Except.error "Expected a JSON array of OBS calls" := by
    simp only [parseCallsFromResponse, hjson]
    exact parseCallsFromJson_error_of_not_arr j harr
  have hrun : yoloRun env prompt
      = (gatherEvents (env.scenesAt 1)
          ++ [YEvent.llmRequest [Turn.userInitial (env.stateTextAt 1) prompt]],
         YoloOutcome.parseFailed) := by
    show yoloStep env prompt 1 MAX_ATTEMPTS [] [] = _
    rw [show MAX_ATTEMPTS = 2 + 1 from rfl, yoloStep_succ,
      yoloAttempt_parse_error env prompt (2 == 0) _ hresp hparse]
  refine ⟨hrun, ?_, ?_⟩
  · rw [hrun]
    have h0 := countExec_gatherEvents (env.scenesAt 1)
    simp only [countExec, List.countP_append] at h0 ⊢
    simp [h0, List.countP_cons]
  · rw [hrun]
    have h0 := countLlm_gatherEvents (env.scenesAt 1)
    simp only [countLlm, List.countP_append] at h0 ⊢
    simp [h0, List.countP_cons]

/-- C4 witness: the amended theorem applied at the concrete non-array
environment. -/
theorem yolo_malformed_is_fatal_witness :
    yoloRun envNonArray "request2"
      = (gatherEvents [] ++ [YEvent.llmRequest [Turn.userInitial "" "request2"]],
         YoloOutcome.parseFailed)
    ∧ countExec (yoloRun envNonArray "request2").1 = 0
    ∧ countLlm (yoloRun envNonArray "request2").1 = 1 :=
  yolo_malformed_is_fatal envNonArray "request2" (Json.obj [])
    (by decide) rfl rfl

/-! ## Claim C7: the bounded retry loop -/

/-- Helper: the batch trace consists of executions only. -/
theorem countLlm_runBatch (err : Nat → Option String) (i : Nat)
    (calls : List ObsCall) : countLlm (runBatch err i calls).1 = 0 := by
  induction calls generalizing i with
  | nil => rfl
  | cons c rest ih =>
    simp only [runBatch, countLlm] at ih ⊢
    cases herr : err i <;> simp [List.countP_cons, ih]

/-- Helper: events of either outcome of one attempt. -/
def AttemptOut.evs : AttemptOut → List YEvent
  | .halt evs _ => evs
  | .retry evs _ _ => evs

/-- Helper: one attempt issues exactly one translation request. -/
theorem countLlm_yoloAttempt (env : YoloEnv) (prompt : String) (attempt : Nat)
    (isLast : Bool) (msgs : List Turn) (prev : List CallResult) :
    countLlm (yoloAttempt env prompt attempt isLast msgs prev).evs = 1 := by
  have hg := countLlm_gatherEvents (env.scenesAt attempt)
  have hb := countLlm_runBatch (env.execErr attempt) 0
  simp only [countLlm] at hg hb
  by_cases h1 : env.complete (msgs ++ [attemptTurn env prompt attempt prev]) = ""
  · simp [yoloAttempt, h1, AttemptOut.evs, countLlm, List.countP_append,
      List.countP_cons, hg]
  · cases hp : parseCallsFromResponse env.jsonParse
        (env.complete (msgs ++ [attemptTurn env prompt attempt prev])) with
    | error e =>
      simp [yoloAttempt, h1, hp, AttemptOut.evs, countLlm, List.countP_append,
        List.countP_cons, hg]
    | ok calls =>
      by_cases hc : calls.isEmpty
      · simp [yoloAttempt, h1, hp, hc, AttemptOut.evs, countLlm,
          List.countP_append, List.countP_cons, hg]
      · by_cases hf : (runBatch (env.execErr attempt) 0 calls).2.isEmpty
        · simp [yoloAttempt, h1, hp, hc, hf, AttemptOut.evs, countLlm,
            List.countP_append, List.countP_cons, hg, hb]
        · cases hl : isLast
          · simp [yoloAttempt, h1, hp, hc, hf, hl, AttemptOut.evs, countLlm,
              List.countP_append, List.countP_cons, hg, hb]
          · simp [yoloAttempt, h1, hp, hc, hf, hl, AttemptOut.evs, countLlm,
              List.countP_append, List.countP_cons, hg, hb]

/-- Helper: the loop with fuel r issues at most r translation requests. -/
theorem countLlm_yoloStep (env : YoloEnv) (prompt : String) :
    ∀ (r attempt : Nat) (msgs : List Turn) (prev : List CallResult),
    countLlm (yoloStep env prompt attempt r msgs prev).1 ≤ r := by
  intro r
  induction r with
  | zero => intro attempt msgs prev; exact Nat.le_refl 0
  | succ r ih =>
    intro attempt msgs prev
    rw [yoloStep_succ]
    cases h : yoloAttempt env prompt attempt (r == 0) msgs prev with
    | halt evs out =>
      have h1 := countLlm_yoloAttempt env prompt attempt (r == 0) msgs prev
      rw [h] at h1
      simp only [AttemptOut.evs] at h1
      show countLlm evs ≤ r + 1
      omega
    | retry evs msgs2 failed =>
      have h1 := countLlm_yoloAttempt env prompt attempt (r == 0) msgs prev
      rw [h] at h1
      simp only [AttemptOut.evs] at h1
      have h2 := ih (attempt + 1) msgs2 failed
      simp only [countLlm, List.countP_append] at h1 h2 ⊢
      omega

/-- Helper: an attempt whose nonempty batch runs with zero failures halts
the loop with done. -/
theorem yoloAttempt_done (env : YoloEnv) (prompt : String) (attempt : Nat)
    (isLast : Bool) (msgs : List Turn) (prev : List CallResult)
    (calls : List ObsCall)
    (hresp : env.complete (msgs ++ [attemptTurn env prompt attempt prev]) ≠ "")
    (hp : parseCallsFromResponse env.jsonParse
        (env.complete (msgs ++ [attemptTurn env prompt attempt prev]))
        = Except.ok calls)
    (hne : calls ≠ [])
    (hf : (runBatch (env.execErr attempt) 0 calls).2 = []) :
    yoloAttempt env prompt attempt isLast msgs prev
      = .halt (gatherEvents (env.scenesAt attempt)
          ++ [.llmRequest (msgs ++ [attemptTurn env prompt attempt prev])]
          ++ (runBatch (env.execErr attempt) 0 calls).1) .done := by
  have hne' : calls.isEmpty = false := by
    cases calls with
    | nil => exact absurd rfl hne
    | cons a l => rfl
  have hf' : (runBatch (env.execErr attempt) 0 calls).2.isEmpty = true := by
    rw [hf]; rfl
  simp [yoloAttempt, hp, if_neg hresp, hne', hf']

/-- Helper: an attempt that is not the last and whose batch has failures
retries, carrying forward exactly the failure list of the batch. -/
theorem yoloAttempt_retry (env : YoloEnv) (prompt : String) (attempt : Nat)
    (isLast : Bool) (msgs : List Turn) (prev : List CallResult)
    (calls : List ObsCall)
    (hl : isLast = false)
    (hresp : env.complete (msgs ++ [attemptTurn env prompt attempt prev]) ≠ "")
    (hp : parseCallsFromResponse env.jsonParse
        (env.complete (msgs ++ [attemptTurn env prompt attempt prev]))
        = Except.ok calls)
    (hne : calls ≠ [])
    (hfne : (runBatch (env.execErr attempt) 0 calls).2 ≠ []) :
    yoloAttempt env prompt attempt isLast msgs prev
      = .retry (gatherEvents (env.scenesAt attempt)
          ++ [.llmRequest (msgs ++ [attemptTurn env prompt attempt prev])]
          ++ (runBatch (env.execErr attempt) 0 calls).1)
          ((msgs ++ [attemptTurn env prompt attempt prev])
            ++ [Turn.assistant (env.complete
                  (msgs ++ [attemptTurn env prompt attempt prev]))])
          ((runBatch (env.execErr attempt) 0 calls).2) := by
  have hne' : calls.isEmpty = false := by
    cases calls with
    | nil => exact absurd rfl hne
    | cons a l => rfl
  have hfne' : (runBatch (env.execErr attempt) 0 calls).2.isEmpty = false := by
    cases hx : (runBatch (env.execErr attempt) 0 calls).2 with
    | nil => exact absurd hx hfne
    | cons a l => rfl
  simp [yoloAttempt, hp, if_neg hresp, hne', hfne', hl]

/-- Helper: a last attempt whose batch has failures halts the loop with
those failures reported. -/
theorem yoloAttempt_exhaust (env : YoloEnv) (prompt : String) (attempt : Nat)
    (isLast : Bool) (msgs : List Turn) (prev : List CallResult)
    (calls : List ObsCall)
    (hl : isLast = true)
    (hresp : env.complete (msgs ++ [attemptTurn env prompt attempt prev]) ≠ "")
    (hp : parseCallsFromResponse env.jsonParse
        (env.complete (msgs ++ [attemptTurn env prompt attempt prev]))
        = Except.ok calls)
    (hne : calls ≠ [])
    (hfne : (runBatch (env.execErr attempt) 0 calls).2 ≠ []) :
    yoloAttempt env prompt attempt isLast msgs prev
      = .halt (gatherEvents (env.scenesAt attempt)
          ++ [.llmRequest (msgs ++ [attemptTurn env prompt attempt prev])]
          ++ (runBatch (env.execErr attempt) 0 calls).1)
          (.exhausted ((runBatch (env.execErr attempt) 0 calls).2)) := by
  have hne' : calls.isEmpty = false := by
    cases calls with
    | nil => exact absurd rfl hne
    | cons a l => rfl
  have hfne' : (runBatch (env.execErr attempt) 0 calls).2.isEmpty = false := by
    cases hx : (runBatch (env.execErr attempt) 0 calls).2 with
    | nil => exact absurd hx hfne
    | cons a l => rfl
  simp [yoloAttempt, hp, if_neg hresp, hne', hfne', hl]

/-- Helper: trace counting distributes over appends. -/
theorem countLlm_append (a b : List YEvent) :
    countLlm (a ++ b) = countLlm a + countLlm b :=
  List.countP_append _ _ _

/-- Helper: one translation request counts once. -/
theorem countLlm_single_llm (m : List Turn) :
    countLlm [YEvent.llmRequest m] = 1 := rfl

/-- Helper: the loop with fuel 3 (attempt 1 of 3: not last). -/
theorem yoloStep_three (env : YoloEnv) (prompt : String) (attempt : Nat)
    (msgs : List Turn) (prev : List CallResult) :
    yoloStep env prompt attempt 3 msgs prev
      = match yoloAttempt env prompt attempt false msgs prev with
        | .halt evs out => (evs, out)
        | .retry evs msgs2 failed =>
          let r := yoloStep env prompt (attempt + 1) 2 msgs2 failed
          (evs ++ r.1, r.2) := rfl

/-- Helper: the loop with fuel 2 (one attempt before the last). -/
theorem yoloStep_two (env : YoloEnv) (prompt : String) (attempt : Nat)
    (msgs : List Turn) (prev : List CallResult) :
    yoloStep env prompt attempt 2 msgs prev
      = match yoloAttempt env prompt attempt false msgs prev with
        | .halt evs out => (evs, out)
        | .retry evs msgs2 failed =>
          let r := yoloStep env prompt (attempt + 1) 1 msgs2 failed
          (evs ++ r.1, r.2) := rfl

/-- Helper: the loop with fuel 1 (the last attempt). -/
theorem yoloStep_one (env : YoloEnv) (prompt : String) (attempt : Nat)
    (msgs : List Turn) (prev : List CallResult) :
    yoloStep env prompt attempt 1 msgs prev
      = match yoloAttempt env prompt attempt true msgs prev with
        | .halt evs out => (evs, out)
        | .retry evs msgs2 failed =>
          let r := yoloStep env prompt (attempt + 1) 0 msgs2 failed
          (evs ++ r.1, r.2) := rfl

/-- C7: the retry loop is bounded and convergent as specified: (i) at most
MAX_ATTEMPTS = 3 translation attempts ever happen; (ii) an attempt whose
nonempty batch executes with zero failures ends the run in done with no
further attempt; (iii) in the convergence scenario - a first batch with
failures, a second batch that fully succeeds - the run is exactly two
attempts ending in done, and the second translation turn carries exactly
the recorded failure list of the first batch (requestType and requestData
inside the CallResult's call, with its error) as its userRetry message;
(iv) a last attempt whose batch still has failures ends the run signalling
overall failure with those failures reported. -/
theorem yolo_retry_loop_spec :
    (MAX_ATTEMPTS = 3
      ∧ ∀ (env : YoloEnv) (prompt : String),
          countLlm (yoloRun env prompt).1 ≤ MAX_ATTEMPTS)
    ∧ (∀ (env : YoloEnv) (prompt : String) (attempt r : Nat) (msgs : List Turn)
        (prev : List CallResult) (calls : List ObsCall),
        env.complete (msgs ++ [attemptTurn env prompt attempt prev]) ≠ "" →
        parseCallsFromResponse env.jsonParse
            (env.complete (msgs ++ [attemptTurn env prompt attempt prev]))
          = Except.ok calls →
        calls ≠ [] →
        (runBatch (env.execErr attempt) 0 calls).2 = [] →
        yoloStep env prompt attempt (r + 1) msgs prev
          = (gatherEvents (env.scenesAt attempt)
              ++ [.llmRequest (msgs ++ [attemptTurn env prompt attempt prev])]
              ++ (runBatch (env.execErr attempt) 0 calls).1, .done))
    ∧ (∀ (env : YoloEnv) (prompt : String) (calls1 calls2 : List ObsCall),
        env.complete [Turn.userInitial (env.stateTextAt 1) prompt] ≠ "" →
        parseCallsFromResponse env.jsonParse
            (env.complete [Turn.userInitial (env.stateTextAt 1) prompt])
          = Except.ok calls1 →
        calls1 ≠ [] →
        (runBatch (env.execErr 1) 0 calls1).2 ≠ [] →
        env.complete
            [Turn.userInitial (env.stateTextAt 1) prompt,
             Turn.assistant
               (env.complete [Turn.userInitial (env.stateTextAt 1) prompt]),
             Turn.userRetry ((runBatch (env.execErr 1) 0 calls1).2)
               (env.stateTextAt 2)] ≠ "" →
        parseCallsFromResponse env.jsonParse
            (env.complete
              [Turn.userInitial (env.stateTextAt 1) prompt,
               Turn.assistant
                 (env.complete [Turn.userInitial (env.stateTextAt 1) prompt]),
               Turn.userRetry ((runBatch (env.execErr 1) 0 calls1).2)
                 (env.stateTextAt 2)])
          = Except.ok calls2 →
        calls2 ≠ [] →
        (runBatch (env.execErr 2) 0 calls2).2 = [] →
        yoloRun env prompt
          = (gatherEvents (env.scenesAt 1)
              ++ [.llmRequest [Turn.userInitial (env.stateTextAt 1) prompt]]
              ++ (runBatch (env.execErr 1) 0 calls1).1
              ++ (gatherEvents (env.scenesAt 2)
                  ++ [.llmRequest
                        [Turn.userInitial (env.stateTextAt 1) prompt,
                         Turn.assistant
                           (env.complete
                             [Turn.userInitial (env.stateTextAt 1) prompt]),
                         Turn.userRetry ((runBatch (env.execErr 1) 0 calls1).2)
                           (env.stateTextAt 2)]]
                  ++ (runBatch (env.execErr 2) 0 calls2).1),
             .done)
          ∧ countLlm (yoloRun env prompt).1 = 2)
    ∧ (∀ (env : YoloEnv) (prompt : String) (attempt : Nat) (msgs : List Turn)
        (prev : List CallResult) (calls : List ObsCall),
        env.complete (msgs ++ [attemptTurn env prompt attempt prev]) ≠ "" →
        parseCallsFromResponse env.jsonParse
            (env.complete (msgs ++ [attemptTurn env prompt attempt prev]))
          = Except.ok calls →
        calls ≠ [] →
        (runBatch (env.execErr attempt) 0 calls).2 ≠ [] →
        yoloStep env prompt attempt 1 msgs prev
          = (gatherEvents (env.scenesAt attempt)
              ++ [.llmRequest (msgs ++ [attemptTurn env prompt attempt prev])]
              ++ (runBatch (env.execErr attempt) 0 calls).1,
             .exhausted ((runBatch (env.execErr attempt) 0 calls).2))) := by
  refine ⟨⟨rfl, ?_⟩, ?_, ?_, ?_⟩
  · intro env prompt
    exact countLlm_yoloStep env prompt MAX_ATTEMPTS 1 [] []
  · intro env prompt attempt r msgs prev calls hresp hp hne hf
    rw [yoloStep_succ,
      yoloAttempt_done env prompt attempt (r == 0) msgs prev calls hresp hp hne hf]
  · intro env prompt calls1 calls2 h1 hp1 hn1 hf1 h2 hp2 hn2 hf2
    have e1 := yoloAttempt_retry env prompt 1 false [] [] calls1 rfl h1 hp1 hn1 hf1
    have e2 := yoloAttempt_done env prompt (1 + 1) false
      (([] ++ [attemptTurn env prompt 1 []])
        ++ [Turn.assistant (env.complete ([] ++ [attemptTurn env prompt 1 []]))])
      ((runBatch (env.execErr 1) 0 calls1).2) calls2 h2 hp2 hn2 hf2
    have hrun : yoloRun env prompt
        = (gatherEvents (env.scenesAt 1)
            ++ [.llmRequest [Turn.userInitial (env.stateTextAt 1) prompt]]
            ++ (runBatch (env.execErr 1) 0 calls1).1
            ++ (gatherEvents (env.scenesAt 2)
                ++ [.llmRequest
                      [Turn.userInitial (env.stateTextAt 1) prompt,
                       Turn.assistant
                         (env.complete
                           [Turn.userInitial (env.stateTextAt 1) prompt]),
                       Turn.userRetry ((runBatch (env.execErr 1) 0 calls1).2)
                         (env.stateTextAt 2)]]
                ++ (runBatch (env.execErr 2) 0 calls2).1),
           .done) := by
      show yoloStep env prompt 1 3 [] [] = _
      rw [yoloStep_three, e1]
      simp only [yoloStep_two, e2]
      rfl
    refine ⟨hrun, ?_⟩
    rw [hrun]
    have hg1 := countLlm_gatherEvents (env.scenesAt 1)
    have hg2 := countLlm_gatherEvents (env.scenesAt 2)
    have hb1 := countLlm_runBatch (env.execErr 1) 0 calls1
    have hb2 := countLlm_runBatch (env.execErr 2) 0 calls2
    simp only [countLlm, List.countP_append] at hg1 hg2 hb1 hb2 ⊢
    simp [hg1, hg2, hb1, hb2, List.countP_cons]
  · intro env prompt attempt msgs prev calls hresp hp hne hfne
    rw [yoloStep_one,
      yoloAttempt_exhaust env prompt attempt true msgs prev calls rfl hresp hp hne hfne]

/-- Concrete environment for the convergence scenario: the first translated
batch is one call that fails with boom, the second is one call that
succeeds; both responses are plain JSON arrays. -/
def envRetryOnce : YoloEnv :=
  { scenesAt := fun _ => []
    stateTextAt := fun _ => ""
    jsonParse := fun s =>
      if s = "[\x7b\"requestType\":\"A\"\x7d]" then
        some (Json.arr [Json.obj [("requestType", Json.str "A")]])
      else if s = "[\x7b\"requestType\":\"B\"\x7d]" then
        some (Json.arr [Json.obj [("requestType", Json.str "B")]])
      else none
    complete := fun msgs =>
      match msgs with
      | [_] => "[\x7b\"requestType\":\"A\"\x7d]"
      | _ => "[\x7b\"requestType\":\"B\"\x7d]"
    execErr := fun attempt _ => if attempt = 1 then some "boom" else none }

/-- C7 witness: the convergence conjunct of the retry-loop theorem applied
at the concrete one-failure environment. -/
theorem yolo_retry_loop_spec_witness :
    yoloRun envRetryOnce "p"
      = (gatherEvents (envRetryOnce.scenesAt 1)
          ++ [.llmRequest [Turn.userInitial (envRetryOnce.stateTextAt 1) "p"]]
          ++ (runBatch (envRetryOnce.execErr 1) 0
                [{ requestType := Json.str "A", requestData := none }]).1
          ++ (gatherEvents (envRetryOnce.scenesAt 2)
              ++ [.llmRequest
                    [Turn.userInitial (envRetryOnce.stateTextAt 1) "p",
                     Turn.assistant
                       (envRetryOnce.complete
                         [Turn.userInitial (envRetryOnce.stateTextAt 1) "p"]),
                     Turn.userRetry
                       ((runBatch (envRetryOnce.execErr 1) 0
                          [{ requestType := Json.str "A", requestData := none }]).2)
                       (envRetryOnce.stateTextAt 2)]]
              ++ (runBatch (envRetryOnce.execErr 2) 0
                    [{ requestType := Json.str "B", requestData := none }]).1),
         .done)
    ∧ countLlm (yoloRun envRetryOnce "p").1 = 2 :=
  yolo_retry_loop_spec.2.2.1 envRetryOnce "p"
    [{ requestType := Json.str "A", requestData := none }]
    [{ requestType := Json.str "B", requestData := none }]
    (by decide) rfl (List.cons_ne_nil _ _) (List.cons_ne_nil _ _)
    (by decide) rfl (List.cons_ne_nil _ _) rfl

/-! ## Claim C8: unique-name resolution -/

/-- Helper: numeric value of a decimal digit character. -/
def digitVal (c : Char) : Nat := c.toNat - 48

/-- Helper: decimal decoding of a character list. -/
def decodeDigits (cs : List Char) : Nat :=
  cs.foldl (fun a c => 10 * a + digitVal c) 0

/-- Helper: the decimal digit characters decode back to their value. -/
theorem digitVal_digitChar : ∀ d, d < 10 → digitVal (Nat.digitChar d) = d := by
  decide

/-- Helper: decoding what toDigitsCore produces continues the fold with
the rendered number as accumulator. -/
theorem toDigitsCore_decode :
    ∀ (fuel n : Nat), n < fuel → ∀ ds : List Char,
      decodeDigits (Nat.toDigitsCore 10 fuel n ds)
        = ds.foldl (fun a c => 10 * a + digitVal c) n := by
  intro fuel
  induction fuel with
  | zero => intro n hn; omega
  | succ fuel ih =>
    intro n hn ds
    by_cases h0 : n / 10 = 0
    · have hn10 : n < 10 := by omega
      have : Nat.toDigitsCore 10 (fuel + 1) n ds = Nat.digitChar (n % 10) :: ds := by
        simp [Nat.toDigitsCore, h0]
      rw [this]
      simp only [decodeDigits, List.foldl_cons]
      rw [digitVal_digitChar (n % 10) (Nat.mod_lt n (by omega))]
      rw [Nat.mul_zero, Nat.zero_add, Nat.mod_eq_of_lt hn10]
    · have hge : 10 ≤ n := by
        by_contra hlt
        exact h0 (Nat.div_eq_of_lt (by omega))
      have hdiv : n / 10 < fuel := by
        have h1 : n / 10 < n := Nat.div_lt_self (by omega) (by omega)
        omega
      have : Nat.toDigitsCore 10 (fuel + 1) n ds
          = Nat.toDigitsCore 10 fuel (n / 10) (Nat.digitChar (n % 10) :: ds) := by
        simp [Nat.toDigitsCore, h0]
      rw [this, ih (n / 10) hdiv]
      simp only [List.foldl_cons]
      rw [digitVal_digitChar (n % 10) (Nat.mod_lt n (by omega)),
        Nat.div_add_mod]

/-- Helper: decimal rendering round-trips through decoding. -/
theorem decodeDigits_repr (n : Nat) : decodeDigits (Nat.repr n).data = n := by
  show decodeDigits (Nat.toDigits 10 n).asString.data = n
  have : (Nat.toDigits 10 n).asString.data = Nat.toDigits 10 n := rfl
  rw [this]
  show decodeDigits (Nat.toDigitsCore 10 (n + 1) n []) = n
  rw [toDigitsCore_decode (n + 1) n (Nat.lt_succ_self n) []]
  rfl

/-- Helper: decimal rendering of naturals is injective. -/
theorem natRepr_injective : Function.Injective Nat.repr := by
  intro a b h
  have := congrArg (fun s : String => decodeDigits s.data) h
  simpa [decodeDigits_repr] using this

/-- Helper: the suffixed candidate names are injective in the suffix. -/
theorem candName_inj (base : String) (j k : Nat)
    (h : candName base j = candName base k) : j = k := by
  have hd : (base ++ "-").data ++ (Nat.repr j).data
      = (base ++ "-").data ++ (Nat.repr k).data := by
    have h1 := congrArg String.data h
    simpa [candName, String.data_append] using h1
  have hr : (Nat.repr j).data = (Nat.repr k).data :=
    List.append_cancel_left hd
  exact natRepr_injective (congrArg String.mk hr)

/-- Helper: among any names.length + 1 consecutive candidates, one is
free. -/
theorem exists_free_suffix (names : List String) (base : String) (s : Nat) :
    ∃ j, j < names.length + 1 ∧ candName base (s + j) ∉ names := by
  by_contra hcon
  push_neg at hcon
  have hinj : Function.Injective (fun j : Nat => candName base (s + j)) := by
    intro a b hab
    have := candName_inj base (s + a) (s + b) hab
    omega
  have hsub : (Finset.range (names.length + 1)).image
      (fun j => candName base (s + j)) ⊆ names.toFinset := by
    intro x hx
    rw [Finset.mem_image] at hx
    obtain ⟨j, hj, rfl⟩ := hx
    rw [Finset.mem_range] at hj
    exact List.mem_toFinset.2 (hcon j hj)
  have hcard := Finset.card_le_card hsub
  rw [Finset.card_image_of_injective _ hinj, Finset.card_range] at hcard
  have hle := names.toFinset_card_le
  omega

/-- Helper: with enough fuel the while loop returns the first free suffix
at or after the start. -/
theorem uniqueFrom_finds (names : List String) (base : String) :
    ∀ (fuel s : Nat), (∃ j, j < fuel ∧ candName base (s + j) ∉ names) →
      candName base (uniqueFrom names base fuel s) ∉ names
      ∧ s ≤ uniqueFrom names base fuel s
      ∧ ∀ i, s ≤ i → i < uniqueFrom names base fuel s → candName base i ∈ names := by
  intro fuel
  induction fuel with
  | zero =>
    intro s h
    obtain ⟨j, hj, _⟩ := h
    omega
  | succ fuel ih =>
    intro s h
    obtain ⟨j, hj, hfree⟩ := h
    by_cases hs : candName base s ∈ names
    · have hstep : uniqueFrom names base (fuel + 1) s
          = uniqueFrom names base fuel (s + 1) := by
        simp [uniqueFrom, hs]
      have hex : ∃ j, j < fuel ∧ candName base (s + 1 + j) ∉ names := by
        cases j with
        | zero => exact absurd hs (by simpa using hfree)
        | succ j' =>
          refine ⟨j', by omega, ?_⟩
          have : s + 1 + j' = s + (j' + 1) := by omega
          rw [this]
          exact hfree
      obtain ⟨ha, hb, hc⟩ := ih (s + 1) hex
      rw [hstep]
      refine ⟨ha, by omega, ?_⟩
      intro i hsi hik
      rcases Nat.eq_or_lt_of_le hsi with hEq | hlt
      · rw [← hEq]; exact hs
      · exact hc i hlt hik
    · have hstep : uniqueFrom names base (fuel + 1) s = s := by
        simp [uniqueFrom, hs]
      rw [hstep]
      exact ⟨hs, Nat.le_refl s, fun i h1 h2 => absurd (Nat.lt_of_le_of_lt h1 h2)
        (Nat.lt_irrefl s)⟩

/-- C8: uniqueInputName never returns a name of the existing set; it
returns the base name itself exactly when the base is free; otherwise it
returns baseName-k for the first free k = 2, 3, ...; and on the existing
set of Cam and Cam-2 with base Cam it resolves to Cam-3. -/
theorem uniqueInputName_spec (names : List String) (base : String) :
    uniqueInputName names base ∉ names
    ∧ (base ∉ names → uniqueInputName names base = base)
    ∧ (base ∈ names → ∃ k, 2 ≤ k
        ∧ uniqueInputName names base = candName base k
        ∧ candName base k ∉ names
        ∧ ∀ i, 2 ≤ i → i < k → candName base i ∈ names)
    ∧ uniqueInputName ["Cam", "Cam-2"] "Cam" = "Cam-3" := by
  have hconc : uniqueInputName ["Cam", "Cam-2"] "Cam" = "Cam-3" := by decide
  by_cases hb : base ∈ names
  · have hex := exists_free_suffix names base 2
    obtain ⟨hfreeK, hleK, hminK⟩ :=
      uniqueFrom_finds names base (names.length + 1) 2 hex
    have hdef : uniqueInputName names base
        = candName base (uniqueFrom names base (names.length + 1) 2) := by
      simp [uniqueInputName, hb]
    refine ⟨?_, fun habs => absurd hb habs, fun _ => ?_, hconc⟩
    · rw [hdef]; exact hfreeK
    · exact ⟨uniqueFrom names base (names.length + 1) 2, hleK, hdef, hfreeK, hminK⟩
  · have hdef : uniqueInputName names base = base := by
      simp [uniqueInputName, hb]
    exact ⟨by rw [hdef]; exact hb, fun _ => hdef, fun habs => absurd habs hb, hconc⟩

/-- C8 witness: the resolution theorem applied at the concrete example. -/
theorem uniqueInputName_spec_witness :
    uniqueInputName ["Cam", "Cam-2"] "Cam" ∉ (["Cam", "Cam-2"] : List String)
    ∧ uniqueInputName ["Cam", "Cam-2"] "Cam" = "Cam-3" :=
  ⟨(uniqueInputName_spec ["Cam", "Cam-2"] "Cam").1,
   (uniqueInputName_spec ["Cam", "Cam-2"] "Cam").2.2.2⟩

/-! ## Claim C9: what the directory listing keeps -/

/-- Helper: insertion keeps membership. -/
theorem mem_insertStr (x a : String) (l : List String) :
    a ∈ insertStr x l ↔ a = x ∨ a ∈ l := by
  induction l with
  | nil => simp [insertStr]
  | cons y ys ih =>
    simp only [insertStr]
    by_cases h : strLeChars x.data y.data = true
    · rw [if_pos h]
      simp
    · rw [if_neg h]
      simp only [List.mem_cons, ih]
      tauto

/-- Helper: sorting keeps membership. -/
theorem mem_sortStrings (a : String) (l : List String) :
    a ∈ sortStrings l ↔ a ∈ l := by
  induction l with
  | nil => simp [sortStrings]
  | cons x xs ih => simp [sortStrings, mem_insertStr, ih]

/-- C9: a DesiredImage is produced exactly for the directory entries that
are regular files whose lowercased extension is on the allow-list - an
entry that is not a regular file yields nothing even when its name ends in
an image extension (the subdir.png directory yields no image), and
matching is case-insensitive on the extension (A.PNG is kept). -/
theorem listImagesInDir_spec :
    (∀ (dir : String) (entries : List DirEntry) (img : Image),
      img ∈ listImagesInDir dir entries
        ↔ ∃ e, e ∈ entries ∧ e.isFile = true ∧ img.fileName = e.name
            ∧ IMAGE_EXTS.contains (strToLower (extname e.name)) = true
            ∧ img.filePath = dir ++ "/" ++ e.name)
    ∧ listImagesInDir "/d" [{ name := "subdir.png", isFile := false }] = []
    ∧ (listImagesInDir "/d" [{ name := "A.PNG", isFile := true }]).map Image.fileName
        = ["A.PNG"] := by
  refine ⟨?_, by decide, by decide⟩
  intro dir entries img
  simp only [listImagesInDir, List.mem_map, mem_sortStrings, List.mem_filter]
  constructor
  · rintro ⟨name, ⟨⟨e, ⟨hee, hef⟩, rfl⟩, hext⟩, rfl⟩
    exact ⟨e, hee, hef, rfl, hext, rfl⟩
  · rintro ⟨e, hee, hef, h1, hext, h2⟩
    refine ⟨e.name, ⟨⟨e, ⟨hee, hef⟩, rfl⟩, hext⟩, ?_⟩
    cases img
    simp_all

/-! ## Claim C10: every image is counted exactly once -/

/-- Helper: one step adds one to the sum of the two counters and leaves
the other counter alone in each branch. -/
theorem processImage_counts (st : RemoteState) (ws : WorkSet) (img : Image) :
    ((processImage st ws img).work.created = ws.created + 1
      ∧ (processImage st ws img).work.skipped = ws.skipped)
    ∨ ((processImage st ws img).work.created = ws.created
      ∧ (processImage st ws img).work.skipped = ws.skipped + 1) := by
  by_cases h1 : img.fileName ∈ ws.existingNames
  · right; simp [processImage, h1]
  · by_cases h2 : img.filePath ∈ ws.existingFiles
    · right; simp [processImage, h1, h2]
    · by_cases h3 : img.fileName ∈ ws.allInputNames
      · cases hf : settingsFileOf st img.fileName with
        | some f =>
          by_cases h4 : f = img.filePath
          · left; simp [processImage, h1, h2, h3, hf, h4]
          · right; simp [processImage, h1, h2, h3, hf, h4]
        | none => right; simp [processImage, h1, h2, h3, hf]
      · left; simp [processImage, h1, h2, h3]

/-- Helper: over a whole pass the counter sum grows by the number of
images processed. -/
theorem runImages_counts (images : List Image) :
    ∀ (st : RemoteState) (ws : WorkSet),
      (runImages st ws images).work.created + (runImages st ws images).work.skipped
        = ws.created + ws.skipped + images.length := by
  induction images with
  | nil => intro st ws; simp [runImages]
  | cons img rest ih =>
    intro st ws
    simp only [runImages]
    rw [ih]
    rcases processImage_counts st ws img with ⟨hc, hs⟩ | ⟨hc, hs⟩ <;>
      rw [hc, hs] <;> simp [List.length_cons] <;> omega

/-- C10: each processed DesiredImage increments exactly one of the two
counters by exactly one, and a pass that runs to completion reports
created + skipped = number of desired images. -/
theorem addImages_counts_total :
    (∀ (st : RemoteState) (ws : WorkSet) (img : Image),
      ((processImage st ws img).work.created = ws.created + 1
        ∧ (processImage st ws img).work.skipped = ws.skipped)
      ∨ ((processImage st ws img).work.created = ws.created
        ∧ (processImage st ws img).work.skipped = ws.skipped + 1))
    ∧ (∀ (st : RemoteState) (images : List Image),
        (addImagesRun st images).work.created
          + (addImagesRun st images).work.skipped = images.length) := by
  refine ⟨processImage_counts, ?_⟩
  intro st images
  simp only [addImagesRun]
  rw [runImages_counts]
  simp [initWorkSet]

/-! ## Claim C2: name conflicts are skipped without mutation -/

/-- Helper: no step of any pass ever issues SetInputSettings. -/
theorem runImages_no_setInputSettings (images : List Image) :
    ∀ (st : RemoteState) (ws : WorkSet),
      ∀ e ∈ (runImages st ws images).events, ∀ n, e ≠ RecEvent.setInputSettings n := by
  induction images with
  | nil => intro st ws e he; simp [runImages] at he
  | cons img rest ih =>
    intro st ws e he n
    show e ≠ _
    have hsplit : e ∈ (processImage st ws img).events
        ∨ e ∈ (runImages (processImage st ws img).state
            (processImage st ws img).work rest).events := by
      simpa [runImages] using he
    rcases hsplit with hstep | hrest
    · intro hEq
      subst hEq
      by_cases h1 : img.fileName ∈ ws.existingNames
      · simp [processImage, h1] at hstep
      · by_cases h2 : img.filePath ∈ ws.existingFiles
        · simp [processImage, h1, h2] at hstep
        · by_cases h3 : img.fileName ∈ ws.allInputNames
          · cases hf : settingsFileOf st img.fileName with
            | some f =>
              by_cases h4 : f = img.filePath
              · simp [processImage, h1, h2, h3, hf, h4] at hstep
              · simp [processImage, h1, h2, h3, hf, h4] at hstep
            | none => simp [processImage, h1, h2, h3, hf] at hstep
          · simp [processImage, h1, h2, h3] at hstep
    · exact ih (processImage st ws img).state (processImage st ws img).work e hrest n

/-- C2: a DesiredImage whose file name is a global input name, is not a
member of the container, and whose backing file is undeterminable or
different, is skipped - the skipped counter advances, the created counter,
working sets and remote state are untouched - and the step issues no
mutating call: its only possible remote call is the settings read, and no
pass ever issues SetInputSettings at all. -/
theorem reconciler_conflict_skip_no_mutation (st : RemoteState) (ws : WorkSet)
    (img : Image)
    (hmem : img.fileName ∉ ws.existingNames)
    (hglob : img.fileName ∈ ws.allInputNames)
    (hfile : ∀ f, settingsFileOf st img.fileName = some f → f ≠ img.filePath) :
    (processImage st ws img).state = st
    ∧ (processImage st ws img).work = { ws with skipped := ws.skipped + 1 }
    ∧ (∀ e ∈ (processImage st ws img).events, e.isMutation = false)
    ∧ RecEvent.setInputSettings img.fileName ∉ (processImage st ws img).events
    ∧ ((processImage st ws img).decision = Decision.skipFile
        ∨ (processImage st ws img).decision = Decision.skipConflict)
    ∧ (∀ (st₀ : RemoteState) (ws₀ : WorkSet) (imgs : List Image),
        ∀ e ∈ (runImages st₀ ws₀ imgs).events,
          ∀ n, e ≠ RecEvent.setInputSettings n) := by
  have hglobal := fun st₀ ws₀ imgs => runImages_no_setInputSettings imgs st₀ ws₀
  by_cases h2 : img.filePath ∈ ws.existingFiles
  · refine ⟨?_, ?_, ?_, ?_, ?_, hglobal⟩ <;>
      simp [processImage, hmem, h2]
  · cases hf : settingsFileOf st img.fileName with
    | some f =>
      have h4 : ¬f = img.filePath := hfile f hf
      refine ⟨?_, ?_, ?_, ?_, ?_, hglobal⟩ <;>
        simp [processImage, hmem, h2, hglob, hf, h4, RecEvent.isMutation]
    | none =>
      refine ⟨?_, ?_, ?_, ?_, ?_, hglobal⟩ <;>
        simp [processImage, hmem, h2, hglob, hf, RecEvent.isMutation]

/-- Concrete conflict input: the global input a.png is backed by another
file, and the scene has no members. -/
def stConflict : RemoteState := ⟨[], [("a.png", some "/q/other.png")]⟩

/-- Concrete conflicting image. -/
def imgConflict : Image := ⟨"a.png", "/p/a.png"⟩

/-- C2 witness: the conflict theorem applied at the concrete input. -/
theorem reconciler_conflict_skip_no_mutation_witness :
    (processImage stConflict (initWorkSet stConflict) imgConflict).state = stConflict
    ∧ (processImage stConflict (initWorkSet stConflict) imgConflict).work
        = { initWorkSet stConflict with
              skipped := (initWorkSet stConflict).skipped + 1 }
    ∧ RecEvent.setInputSettings imgConflict.fileName
        ∉ (processImage stConflict (initWorkSet stConflict) imgConflict).events
    ∧ ((processImage stConflict (initWorkSet stConflict) imgConflict).decision
          = Decision.skipFile
        ∨ (processImage stConflict (initWorkSet stConflict) imgConflict).decision
          = Decision.skipConflict) := by
  have h := reconciler_conflict_skip_no_mutation stConflict
    (initWorkSet stConflict) imgConflict (by decide) (by decide)
    (by intro f hf; cases hf; decide)
  exact ⟨h.1, h.2.1, h.2.2.2.1, h.2.2.2.2.1⟩

/-! ## Claim C3: which working sets a step updates, and mid-pass reads -/

/-- Remote state with one foreign-backed global input and no members. -/
def stMixed : RemoteState := ⟨[], [("a.png", some "/q/other.png")]⟩

/-- Directory with a conflicting image and a fresh one. -/
def imgsMixed : List Image := [⟨"a.png", "/p/a.png"⟩, ⟨"b.png", "/p/b.png"⟩]

/-- C3 counterexample: in a pass that creates b.png, the in-memory
global-name working set is never updated - after the pass it still lacks
the created name - and the pass does re-query the remote system mid-pass
(the branch-3 settings read for a.png), so neither "all three working sets
are updated" nor "the remote system is not re-queried mid-pass" holds. -/
theorem reconciler_workset_counterexample :
    (addImagesRun stMixed imgsMixed).decisions
      = [Decision.skipConflict, Decision.create]
    ∧ "b.png" ∉ (addImagesRun stMixed imgsMixed).work.allInputNames
    ∧ RecEvent.getInputSettings "a.png" ∈ (addImagesRun stMixed imgsMixed).events :=
  ⟨by decide, by decide, by decide⟩

/-- C3 (amended): after each successful create or attach step the
member-name and member-file working sets are extended with the image's
file name and path, so subsequent images of the same pass observe the
mutation, but the global-name working set is never updated mid-pass; and
the only remote read a step can issue is the branch-3 settings query for
its own image, fired exactly when the name is a non-member global name
colliding with the image. -/
theorem reconciler_workset_updates (st : RemoteState) (ws : WorkSet) (img : Image) :
    ((processImage st ws img).decision = Decision.attach
      ∨ (processImage st ws img).decision = Decision.create →
      (processImage st ws img).work.existingNames = ws.existingNames ++ [img.fileName]
      ∧ (processImage st ws img).work.existingFiles = ws.existingFiles ++ [img.filePath])
    ∧ (processImage st ws img).work.allInputNames = ws.allInputNames
    ∧ (∀ n, RecEvent.getInputSettings n ∈ (processImage st ws img).events →
        n = img.fileName
        ∧ img.fileName ∉ ws.existingNames
        ∧ img.filePath ∉ ws.existingFiles
        ∧ img.fileName ∈ ws.allInputNames) := by
  by_cases h1 : img.fileName ∈ ws.existingNames
  · simp [processImage, h1]
  · by_cases h2 : img.filePath ∈ ws.existingFiles
    · simp [processImage, h1, h2]
    · by_cases h3 : img.fileName ∈ ws.allInputNames
      · cases hf : settingsFileOf st img.fileName with
        | some f =>
          by_cases h4 : f = img.filePath
          · simp [processImage, h1, h2, h3, hf, h4]
          · simp [processImage, h1, h2, h3, hf, h4]
        | none => simp [processImage, h1, h2, h3, hf]
      · simp [processImage, h1, h2, h3]

/-- C3 witness: the amended theorem applied at a concrete create step. -/
theorem reconciler_workset_updates_witness :
    (processImage stMixed (initWorkSet stMixed) ⟨"b.png", "/p/b.png"⟩).work.existingNames
      = (initWorkSet stMixed).existingNames ++ ["b.png"]
    ∧ (processImage stMixed (initWorkSet stMixed) ⟨"b.png", "/p/b.png"⟩).work.existingFiles
      = (initWorkSet stMixed).existingFiles ++ ["/p/b.png"]
    ∧ (processImage stMixed (initWorkSet stMixed) ⟨"b.png", "/p/b.png"⟩).work.allInputNames
      = (initWorkSet stMixed).allInputNames := by
  have h := reconciler_workset_updates stMixed (initWorkSet stMixed)
    ⟨"b.png", "/p/b.png"⟩
  have h1 := h.1 (Or.inr (by decide))
  exact ⟨h1.1, h1.2, h.2.1⟩

/-! ## Claim C1: idempotence of the reconciler

The development follows the pass structure: a branch characterization of
the per-image step, stability of the settings lookup under the appends the
step performs, an invariant tying the working sets to the remote state, a
skippability predicate established for every image by the first pass, and
a second-pass lemma showing skippable images produce pure skips. -/

/-- Helper: membership in the member-name view. -/
theorem mem_memberNames (st : RemoteState) (n : String) :
    n ∈ memberNames st ↔ n ∈ st.members ∧ n.data.length ≠ 0 := by
  simp [memberNames, List.mem_filter]

/-- Helper: membership in the member-file view. -/
theorem mem_memberFiles (st : RemoteState) (f : String) :
    f ∈ memberFiles st ↔ ∃ n, n ∈ memberNames st ∧ settingsFileOf st n = some f := by
  simp [memberFiles, List.mem_filterMap]

/-- Helper: the settings lookup succeeds exactly for listed input names. -/
theorem find?_name_isSome (l : List (String × Option String)) (n : String) :
    (l.find? (fun p => p.1 == n)).isSome = true ↔ n ∈ l.map Prod.fst := by
  induction l with
  | nil => simp
  | cons p rest ih =>
    by_cases h : p.1 = n
    · rw [List.find?_cons_of_pos _ (by simp [h])]
      simp [h]
    · rw [List.find?_cons_of_neg _ (by simp [h])]
      simp only [List.map_cons, List.mem_cons, ih]
      constructor
      · exact Or.inr
      · rintro (hEq | hm)
        · exact absurd hEq.symm h
        · exact hm

/-- Helper: a successful lookup is unchanged by appending entries. -/
theorem find?_append_of_isSome (l extra : List (String × Option String))
    (p : String × Option String → Bool) (h : (l.find? p).isSome = true) :
    (l ++ extra).find? p = l.find? p := by
  induction l with
  | nil => simp at h
  | cons a rest ih =>
    by_cases ha : p a = true
    · rw [List.cons_append, List.find?_cons_of_pos _ ha, List.find?_cons_of_pos _ ha]
    · have ha' : p a = false := by simp [ha]
      rw [List.find?_cons_of_neg _ (by simp [ha'])] at h
      rw [List.cons_append, List.find?_cons_of_neg _ (by simp [ha']),
        List.find?_cons_of_neg _ (by simp [ha'])]
      exact ih h

/-- Helper: a failed lookup falls through to the appended entries. -/
theorem find?_append_of_none (l extra : List (String × Option String))
    (p : String × Option String → Bool) (h : l.find? p = none) :
    (l ++ extra).find? p = extra.find? p := by
  induction l with
  | nil => simp
  | cons a rest ih =>
    by_cases ha : p a = true
    · rw [List.find?_cons_of_pos _ ha] at h
      cases h
    · have ha' : (p a = false) := by simp [ha]
      rw [List.find?_cons_of_neg _ (by simp [ha'])] at h
      rw [List.cons_append, List.find?_cons_of_neg _ (by simp [ha'])]
      exact ih h

/-- Helper: the backing file of a listed input is unchanged by member
changes and input appends. -/
theorem settingsFileOf_grow (st : RemoteState) (members' : List String)
    (extra : List (String × Option String)) (n : String)
    (h : n ∈ inputNames st) :
    settingsFileOf ⟨members', st.inputs ++ extra⟩ n = settingsFileOf st n := by
  unfold settingsFileOf
  rw [find?_append_of_isSome _ _ _ ((find?_name_isSome st.inputs n).2 h)]

/-- Helper: a freshly appended input is read back as stored. -/
theorem settingsFileOf_new (st : RemoteState) (members' : List String)
    (name : String) (v : Option String) (h : name ∉ inputNames st) :
    settingsFileOf ⟨members', st.inputs ++ [(name, v)]⟩ name = v := by
  unfold settingsFileOf
  have hnone : st.inputs.find? (fun p => p.1 == name) = none := by
    cases hx : st.inputs.find? (fun p => p.1 == name) with
    | none => rfl
    | some q =>
      have : (st.inputs.find? (fun p => p.1 == name)).isSome = true := by
        rw [hx]; rfl
      exact absurd ((find?_name_isSome st.inputs name).1 this) h
  rw [find?_append_of_none _ _ _ hnone,
    List.find?_cons_of_pos _ (by simp)]

/-- Helper: settings lookups only read the input list. -/
theorem settingsFileOf_members (st : RemoteState) (members' : List String)
    (n : String) :
    settingsFileOf ⟨members', st.inputs⟩ n = settingsFileOf st n := rfl

/-- Helper: the five branches of the per-image step, with the conditions
that select each and the step's full result. -/
theorem processImage_cases (st : RemoteState) (ws : WorkSet) (img : Image) :
    (img.fileName ∈ ws.existingNames
      ∧ processImage st ws img
          = ⟨st, { ws with skipped := ws.skipped + 1 }, [], .skipMember⟩)
    ∨ (img.fileName ∉ ws.existingNames ∧ img.filePath ∈ ws.existingFiles
      ∧ processImage st ws img
          = ⟨st, { ws with skipped := ws.skipped + 1 }, [], .skipFile⟩)
    ∨ (img.fileName ∉ ws.existingNames ∧ img.filePath ∉ ws.existingFiles
      ∧ img.fileName ∈ ws.allInputNames
      ∧ settingsFileOf st img.fileName ≠ some img.filePath
      ∧ processImage st ws img
          = ⟨st, { ws with skipped := ws.skipped + 1 },
             [.getInputSettings img.fileName], .skipConflict⟩)
    ∨ (img.fileName ∉ ws.existingNames ∧ img.filePath ∉ ws.existingFiles
      ∧ img.fileName ∈ ws.allInputNames
      ∧ settingsFileOf st img.fileName = some img.filePath
      ∧ processImage st ws img
          = ⟨{ st with members := st.members ++ [img.fileName] },
             { ws with
                existingNames := ws.existingNames ++ [img.fileName]
                existingFiles := ws.existingFiles ++ [img.filePath]
                created := ws.created + 1 },
             [.getInputSettings img.fileName, .createSceneItem img.fileName,
              .setSceneItemTransform img.fileName], .attach⟩)
    ∨ (img.fileName ∉ ws.existingNames ∧ img.filePath ∉ ws.existingFiles
      ∧ img.fileName ∉ ws.allInputNames
      ∧ processImage st ws img
          = ⟨{ st with
                members := st.members ++ [img.fileName]
                inputs := st.inputs ++
                  [(img.fileName,
                    if (trimChars img.filePath.data).length != 0
                    then some img.filePath else none)] },
             { ws with
                existingNames := ws.existingNames ++ [img.fileName]
                existingFiles := ws.existingFiles ++ [img.filePath]
                created := ws.created + 1 },
             [.createInput img.fileName img.filePath,
              .setSceneItemTransform img.fileName], .create⟩) := by
  by_cases h1 : img.fileName ∈ ws.existingNames
  · exact Or.inl ⟨h1, by simp [processImage, h1]⟩
  · by_cases h2 : img.filePath ∈ ws.existingFiles
    · exact Or.inr (Or.inl ⟨h1, h2, by simp [processImage, h1, h2]⟩)
    · by_cases h3 : img.fileName ∈ ws.allInputNames
      · cases hf : settingsFileOf st img.fileName with
        | some f =>
          by_cases h4 : f = img.filePath
          · subst h4
            exact Or.inr (Or.inr (Or.inr (Or.inl
              ⟨h1, h2, h3, rfl, by simp [processImage, h1, h2, h3, hf]⟩)))
          · refine Or.inr (Or.inr (Or.inl ⟨h1, h2, h3, ?_, ?_⟩))
            · intro hc
              exact h4 (Option.some.inj hc)
            · simp [processImage, h1, h2, h3, hf, h4]
        | none =>
          refine Or.inr (Or.inr (Or.inl ⟨h1, h2, h3, ?_, ?_⟩))
          · intro hc
            cases hc
          · simp [processImage, h1, h2, h3, hf]
      · exact Or.inr (Or.inr (Or.inr (Or.inr
          ⟨h1, h2, h3, by simp [processImage, h1, h2, h3]⟩)))

/-- Directory-derived images have a nonempty file name (they carry an
extension) and a nonblank normalized path (path.resolve output). -/
def GoodImg (img : Image) : Prop :=
  img.fileName.data.length ≠ 0 ∧ (trimChars img.filePath.data).length ≠ 0

/-- A desired image the remote state already accounts for: its name is a
(nonblank) member, its file backs some member, or its name is a global
input backed by a different (or unreadable) file. -/
def skippableS (st : RemoteState) (img : Image) : Prop :=
  img.fileName ∈ memberNames st
  ∨ img.filePath ∈ memberFiles st
  ∨ (img.fileName ∈ inputNames st
      ∧ settingsFileOf st img.fileName ≠ some img.filePath)

/-- The same notion against the in-memory working sets. -/
def wsSkippable (st : RemoteState) (ws : WorkSet) (img : Image) : Prop :=
  img.fileName ∈ ws.existingNames
  ∨ img.filePath ∈ ws.existingFiles
  ∨ (img.fileName ∈ ws.allInputNames
      ∧ settingsFileOf st img.fileName ≠ some img.filePath)

/-- Invariant tying the working sets to the remote state during a pass. -/
def wsInv (st : RemoteState) (ws : WorkSet) : Prop :=
  (∀ n, n ∈ ws.existingNames → n ∈ st.members)
  ∧ (∀ f, f ∈ ws.existingFiles → f ∈ memberFiles st)
  ∧ (∀ n, n ∈ inputNames st → n ∈ ws.allInputNames ∨ n ∈ ws.existingNames)
  ∧ (∀ n, n ∈ ws.allInputNames → n ∈ inputNames st)

/-- Helper: a readable backing file means the name is a listed input. -/
theorem mem_inputNames_of_settingsFileOf (st : RemoteState) (n f : String)
    (h : settingsFileOf st n = some f) : n ∈ inputNames st := by
  unfold settingsFileOf at h
  cases hx : st.inputs.find? (fun p => p.1 == n) with
  | none => rw [hx] at h; cases h
  | some q =>
    exact (find?_name_isSome _ _).1 (by rw [hx]; rfl)

/-- Helper: one step only grows the remote state: members grow, input
names grow, the backing file of every already-listed input is unchanged,
and member files grow. -/
theorem processImage_state_growth (st : RemoteState) (ws : WorkSet) (img : Image) :
    (∀ n, n ∈ st.members → n ∈ (processImage st ws img).state.members)
    ∧ (∀ n, n ∈ inputNames st → n ∈ inputNames (processImage st ws img).state
        ∧ settingsFileOf (processImage st ws img).state n = settingsFileOf st n)
    ∧ (∀ f, f ∈ memberFiles st → f ∈ memberFiles (processImage st ws img).state) := by
  have base : ∀ (st' : RemoteState), st' = st →
      (∀ n, n ∈ st.members → n ∈ st'.members)
      ∧ (∀ n, n ∈ inputNames st → n ∈ inputNames st'
          ∧ settingsFileOf st' n = settingsFileOf st n)
      ∧ (∀ f, f ∈ memberFiles st → f ∈ memberFiles st') := by
    rintro st' rfl
    exact ⟨fun n h => h, fun n h => ⟨h, rfl⟩, fun f h => h⟩
  have grow : ∀ (newInputs : List (String × Option String)),
      (∀ n, n ∈ inputNames st →
        n ∈ inputNames ⟨st.members ++ [img.fileName], st.inputs ++ newInputs⟩
        ∧ settingsFileOf ⟨st.members ++ [img.fileName], st.inputs ++ newInputs⟩ n
            = settingsFileOf st n)
      ∧ (∀ f, f ∈ memberFiles st →
          f ∈ memberFiles ⟨st.members ++ [img.fileName], st.inputs ++ newInputs⟩) := by
    intro newInputs
    have hin : ∀ n, n ∈ inputNames st →
        n ∈ inputNames ⟨st.members ++ [img.fileName], st.inputs ++ newInputs⟩
        ∧ settingsFileOf ⟨st.members ++ [img.fileName], st.inputs ++ newInputs⟩ n
            = settingsFileOf st n := by
      intro n h
      constructor
      · show n ∈ (st.inputs ++ newInputs).map Prod.fst
        rw [List.map_append]
        exact List.mem_append_left _ h
      · exact settingsFileOf_grow st _ newInputs n h
    refine ⟨hin, ?_⟩
    intro f hf
    rw [mem_memberFiles] at hf
    obtain ⟨n, hn, hsf⟩ := hf
    rw [mem_memberFiles]
    refine ⟨n, ?_, ?_⟩
    · rw [mem_memberNames] at hn ⊢
      exact ⟨List.mem_append_left _ hn.1, hn.2⟩
    · rw [(hin n (mem_inputNames_of_settingsFileOf st n f hsf)).2]
      exact hsf
  rcases processImage_cases st ws img with
    ⟨h1, heq⟩ | ⟨h1, h2, heq⟩ | ⟨h1, h2, h3, h4, heq⟩ | ⟨h1, h2, h3, h4, heq⟩ |
    ⟨h1, h2, h3, heq⟩
  · rw [heq]; exact base st rfl
  · rw [heq]; exact base st rfl
  · rw [heq]; exact base st rfl
  · rw [heq]
    have hg := grow []
    have hg' : ∀ n, n ∈ inputNames st →
        n ∈ inputNames ⟨st.members ++ [img.fileName], st.inputs⟩
        ∧ settingsFileOf ⟨st.members ++ [img.fileName], st.inputs⟩ n
            = settingsFileOf st n := by
      intro n h
      have := hg.1 n h
      simpa using this
    refine ⟨fun n h => List.mem_append_left _ h, hg', ?_⟩
    intro f hf
    have := hg.2 f hf
    simpa using this
  · rw [heq]
    exact ⟨fun n h => List.mem_append_left _ h, (grow _).1, (grow _).2⟩

/-- Helper: skippability against the remote state survives a step. -/
theorem skippableS_mono (st : RemoteState) (ws : WorkSet) (img j : Image)
    (hs : skippableS st j) : skippableS (processImage st ws img).state j := by
  obtain ⟨hm, hin, hf⟩ := processImage_state_growth st ws img
  rcases hs with h | h | ⟨hi, hne⟩
  · left
    rw [mem_memberNames] at h ⊢
    exact ⟨hm _ h.1, h.2⟩
  · exact Or.inr (Or.inl (hf _ h))
  · refine Or.inr (Or.inr ⟨(hin _ hi).1, ?_⟩)
    rw [(hin _ hi).2]
    exact hne

/-- Helper: skippability survives a whole pass. -/
theorem runImages_skippableS_mono (images : List Image) :
    ∀ (st : RemoteState) (ws : WorkSet) (j : Image), skippableS st j →
      skippableS (runImages st ws images).state j := by
  induction images with
  | nil => intro st ws j h; simpa [runImages] using h
  | cons img rest ih =>
    intro st ws j h
    simp only [runImages]
    exact ih _ _ j (skippableS_mono st ws img j h)

/-- Helper: after its own step, an image is skippable against the stepped
remote state. -/
theorem processImage_post (st : RemoteState) (ws : WorkSet) (img : Image)
    (hInv : wsInv st ws) (hg : GoodImg img) :
    skippableS (processImage st ws img).state img := by
  obtain ⟨i1, i2, i3, i4⟩ := hInv
  rcases processImage_cases st ws img with
    ⟨h1, heq⟩ | ⟨h1, h2, heq⟩ | ⟨h1, h2, h3, h4, heq⟩ | ⟨h1, h2, h3, h4, heq⟩ |
    ⟨h1, h2, h3, heq⟩
  · rw [heq]
    exact Or.inl ((mem_memberNames st img.fileName).2 ⟨i1 _ h1, hg.1⟩)
  · rw [heq]
    exact Or.inr (Or.inl (i2 _ h2))
  · rw [heq]
    exact Or.inr (Or.inr ⟨i4 _ h3, h4⟩)
  · rw [heq]
    refine Or.inl ((mem_memberNames _ img.fileName).2 ⟨?_, hg.1⟩)
    exact List.mem_append_right _ (List.mem_singleton.2 rfl)
  · rw [heq]
    refine Or.inl ((mem_memberNames _ img.fileName).2 ⟨?_, hg.1⟩)
    exact List.mem_append_right _ (List.mem_singleton.2 rfl)

/-- Helper: the working-set invariant survives a step on a good image. -/
theorem processImage_inv (st : RemoteState) (ws : WorkSet) (img : Image)
    (hInv : wsInv st ws) (hg : GoodImg img) :
    wsInv (processImage st ws img).state (processImage st ws img).work := by
  obtain ⟨i1, i2, i3, i4⟩ := hInv
  have G := processImage_state_growth st ws img
  rcases processImage_cases st ws img with
    ⟨h1, heq⟩ | ⟨h1, h2, heq⟩ | ⟨h1, h2, h3, h4, heq⟩ | ⟨h1, h2, h3, h4, heq⟩ |
    ⟨h1, h2, h3, heq⟩
  · rw [heq]; exact ⟨i1, i2, i3, i4⟩
  · rw [heq]; exact ⟨i1, i2, i3, i4⟩
  · rw [heq]; exact ⟨i1, i2, i3, i4⟩
  · rw [heq] at G ⊢
    refine ⟨?_, ?_, ?_, ?_⟩
    · intro n hn
      rcases List.mem_append.1 hn with h | h
      · exact List.mem_append_left _ (i1 _ h)
      · exact List.mem_append_right _ h
    · intro f hf
      rcases List.mem_append.1 hf with h | h
      · exact G.2.2 _ (i2 _ h)
      · rw [List.mem_singleton] at h
        subst h
        rw [mem_memberFiles]
        refine ⟨img.fileName, ?_, ?_⟩
        · rw [mem_memberNames]
          exact ⟨List.mem_append_right _ (List.mem_singleton.2 rfl), hg.1⟩
        · show settingsFileOf st img.fileName = some img.filePath
          exact h4
    · intro n hn
      rcases i3 n hn with h | h
      · exact Or.inl h
      · exact Or.inr (List.mem_append_left _ h)
    · intro n hn
      exact (G.2.1 n (i4 n hn)).1
  · rw [heq] at G ⊢
    have hnotin : img.fileName ∉ inputNames st := by
      intro hmem
      rcases i3 _ hmem with h | h
      · exact h3 h
      · exact h1 h
    have hv : (if (trimChars img.filePath.data).length != 0
        then some img.filePath else none) = some img.filePath := by
      rw [if_pos]
      simpa using hg.2
    refine ⟨?_, ?_, ?_, ?_⟩
    · intro n hn
      rcases List.mem_append.1 hn with h | h
      · exact List.mem_append_left _ (i1 _ h)
      · exact List.mem_append_right _ h
    · intro f hf
      rcases List.mem_append.1 hf with h | h
      · exact G.2.2 _ (i2 _ h)
      · rw [List.mem_singleton] at h
        subst h
        rw [mem_memberFiles]
        refine ⟨img.fileName, ?_, ?_⟩
        · rw [mem_memberNames]
          exact ⟨List.mem_append_right _ (List.mem_singleton.2 rfl), hg.1⟩
        · rw [settingsFileOf_new st _ img.fileName _ hnotin]
          exact hv
    · intro n hn
      have : n ∈ inputNames st ∨ n = img.fileName := by
        have : n ∈ (st.inputs ++ [(img.fileName, _)]).map Prod.fst := hn
        rw [List.map_append] at this
        rcases List.mem_append.1 this with h | h
        · exact Or.inl h
        · simp at h
          exact Or.inr h
      rcases this with h | h
      · rcases i3 n h with h' | h'
        · exact Or.inl h'
        · exact Or.inr (List.mem_append_left _ h')
      · subst h
        exact Or.inr (List.mem_append_right _ (List.mem_singleton.2 rfl))
    · intro n hn
      exact (G.2.1 n (i4 n hn)).1

/-- Helper: a completed pass over good images leaves every processed image
skippable against the final remote state, and keeps the invariant. -/
theorem runImages_skippable (images : List Image) :
    ∀ (st : RemoteState) (ws : WorkSet), wsInv st ws →
      (∀ img ∈ images, GoodImg img) →
      wsInv (runImages st ws images).state (runImages st ws images).work
      ∧ ∀ img ∈ images, skippableS (runImages st ws images).state img := by
  induction images with
  | nil =>
    intro st ws hInv _
    exact ⟨by simpa [runImages] using hInv, by simp⟩
  | cons img rest ih =>
    intro st ws hInv hAll
    have hg := hAll img (List.mem_cons_self img rest)
    have hrest : ∀ i ∈ rest, GoodImg i :=
      fun i hi => hAll i (List.mem_cons_of_mem _ hi)
    have hInv1 := processImage_inv st ws img hInv hg
    have hpost := processImage_post st ws img hInv hg
    obtain ⟨hInvF, hskipF⟩ :=
      ih (processImage st ws img).state (processImage st ws img).work hInv1 hrest
    refine ⟨by simpa [runImages] using hInvF, ?_⟩
    intro i hi
    rcases List.mem_cons.1 hi with rfl | hi'
    · simp only [runImages]
      exact runImages_skippableS_mono rest _ _ i hpost
    · simpa [runImages] using hskipF i hi'

/-- Helper: a workset-skippable image produces a pure skip: remote state
untouched, only the skipped counter advances, and the decision is one of
the three skip branches. -/
theorem processImage_skip (st : RemoteState) (ws : WorkSet) (img : Image)
    (h : wsSkippable st ws img) :
    (processImage st ws img).state = st
    ∧ (processImage st ws img).work = { ws with skipped := ws.skipped + 1 }
    ∧ ((processImage st ws img).decision = Decision.skipMember
        ∨ (processImage st ws img).decision = Decision.skipFile
        ∨ (processImage st ws img).decision = Decision.skipConflict) := by
  rcases processImage_cases st ws img with
    ⟨h1, heq⟩ | ⟨h1, h2, heq⟩ | ⟨h1, h2, h3, h4, heq⟩ | ⟨h1, h2, h3, h4, heq⟩ |
    ⟨h1, h2, h3, heq⟩
  · rw [heq]; exact ⟨rfl, rfl, Or.inl rfl⟩
  · rw [heq]; exact ⟨rfl, rfl, Or.inr (Or.inl rfl)⟩
  · rw [heq]; exact ⟨rfl, rfl, Or.inr (Or.inr rfl)⟩
  · rcases h with hc | hc | ⟨_, hc⟩
    · exact absurd hc h1
    · exact absurd hc h2
    · exact absurd h4 hc
  · rcases h with hc | hc | ⟨hc, _⟩
    · exact absurd hc h1
    · exact absurd hc h2
    · exact absurd hc h3

/-- Helper: a pass over workset-skippable images leaves everything
untouched, counts every image as skipped, and takes only skip branches. -/
theorem runImages_all_skip (images : List Image) :
    ∀ (st : RemoteState) (ws : WorkSet),
      (∀ img ∈ images, wsSkippable st ws img) →
      (runImages st ws images).state = st
      ∧ (runImages st ws images).work
          = { ws with skipped := ws.skipped + images.length }
      ∧ ∀ d ∈ (runImages st ws images).decisions,
          d = Decision.skipMember ∨ d = Decision.skipFile
            ∨ d = Decision.skipConflict := by
  induction images with
  | nil =>
    intro st ws _
    refine ⟨rfl, by simp [runImages], by simp [runImages]⟩
  | cons img rest ih =>
    intro st ws h
    obtain ⟨hs, hw, hd⟩ := processImage_skip st ws img (h img (List.mem_cons_self img rest))
    have hrest : ∀ i ∈ rest,
        wsSkippable (processImage st ws img).state (processImage st ws img).work i := by
      intro i hi
      rw [hs, hw]
      exact h i (List.mem_cons_of_mem _ hi)
    obtain ⟨r1, r2, r3⟩ :=
      ih (processImage st ws img).state (processImage st ws img).work hrest
    refine ⟨?_, ?_, ?_⟩
    · simp only [runImages]
      rw [r1, hs]
    · simp only [runImages]
      rw [r2, hw]
      simp only [List.length_cons]
      congr 1
      omega
    · simp only [runImages]
      intro d hd'
      rcases List.mem_cons.1 hd' with rfl | hd''
      · exact hd
      · exact r3 d hd''

/-- Helper: the initial working sets satisfy the invariant. -/
theorem wsInv_init (st : RemoteState) : wsInv st (initWorkSet st) := by
  refine ⟨?_, fun f h => h, fun n h => Or.inl h, fun n h => h⟩
  intro n hn
  exact ((mem_memberNames st n).1 hn).1

/-- C1 counterexample: a scene member old.png backed by /p/a.png and a
directory image a.png with the same backing file.  Both runs skip it via
the duplicate-file branch: the second run does report created = 0 and
skipped = 1, but the image never becomes a container member and its skip
is not the member-name branch, so "every image hits the skip branch
because its file name is now a container member" fails. -/
theorem addImages_idempotent_counterexample :
    (addImagesRun (addImagesRun ⟨["old.png"], [("old.png", some "/p/a.png")]⟩
        [⟨"a.png", "/p/a.png"⟩]).state [⟨"a.png", "/p/a.png"⟩]).work.created = 0
    ∧ (addImagesRun (addImagesRun ⟨["old.png"], [("old.png", some "/p/a.png")]⟩
        [⟨"a.png", "/p/a.png"⟩]).state [⟨"a.png", "/p/a.png"⟩]).work.skipped = 1
    ∧ (addImagesRun (addImagesRun ⟨["old.png"], [("old.png", some "/p/a.png")]⟩
        [⟨"a.png", "/p/a.png"⟩]).state [⟨"a.png", "/p/a.png"⟩]).decisions
        = [Decision.skipFile]
    ∧ "a.png" ∉ (addImagesRun ⟨["old.png"], [("old.png", some "/p/a.png")]⟩
        [⟨"a.png", "/p/a.png"⟩]).state.members
    ∧ Decision.skipFile ≠ Decision.skipMember :=
  ⟨by decide, by decide, by decide, by decide, by decide⟩

/-- C1 (amended): for directory-derived images (nonempty names, nonblank
normalized paths), running the reconciler a second time against the
unchanged image list and the remote state of the first run reports
created = 0 and skipped = the number of images; every image hits one of
the three skip branches (member name, duplicate backing file, or name
conflict), though not necessarily the member-name branch. -/
theorem addImages_idempotent (st : RemoteState) (images : List Image)
    (h : ∀ img ∈ images, GoodImg img) :
    (addImagesRun (addImagesRun st images).state images).work.created = 0
    ∧ (addImagesRun (addImagesRun st images).state images).work.skipped
        = images.length
    ∧ ∀ d ∈ (addImagesRun (addImagesRun st images).state images).decisions,
        d = Decision.skipMember ∨ d = Decision.skipFile
          ∨ d = Decision.skipConflict := by
  obtain ⟨-, hskip⟩ := runImages_skippable images st (initWorkSet st) (wsInv_init st) h
  have hws : ∀ img ∈ images,
      wsSkippable (addImagesRun st images).state
        (initWorkSet (addImagesRun st images).state) img :=
    fun img hi => hskip img hi
  obtain ⟨-, h2, h3⟩ := runImages_all_skip images (addImagesRun st images).state
    (initWorkSet (addImagesRun st images).state) hws
  refine ⟨?_, ?_, h3⟩
  · show (runImages (addImagesRun st images).state
      (initWorkSet (addImagesRun st images).state) images).work.created = 0
    rw [h2]
    simp [initWorkSet]
  · show (runImages (addImagesRun st images).state
      (initWorkSet (addImagesRun st images).state) images).work.skipped
      = images.length
    rw [h2]
    simp [initWorkSet]

/-- C1 witness: the amended idempotence theorem applied at the concrete
shared-file state. -/
theorem addImages_idempotent_witness :
    (addImagesRun (addImagesRun ⟨["old.png"], [("old.png", some "/p/a.png")]⟩
        [⟨"a.png", "/p/a.png"⟩]).state [⟨"a.png", "/p/a.png"⟩]).work.created = 0
    ∧ (addImagesRun (addImagesRun ⟨["old.png"], [("old.png", some "/p/a.png")]⟩
        [⟨"a.png", "/p/a.png"⟩]).state [⟨"a.png", "/p/a.png"⟩]).work.skipped
        = ([⟨"a.png", "/p/a.png"⟩] : List Image).length := by
  have h := addImages_idempotent ⟨["old.png"], [("old.png", some "/p/a.png")]⟩
    [⟨"a.png", "/p/a.png"⟩] (by intro img hi; simp at hi; subst hi; constructor <;> decide)
  exact ⟨h.1, h.2.1⟩
